import Mathlib

/-!
Verification of the htmx response-processing helpers
(`tests/htmx_clone/middleware.py`) and the dynamic choice field
(`tests/htmx_clone/forms.py`) of django-nifty-attachments.

The Python code is shallowly embedded: Python runtime values are modelled by
the inductive `PyVal`; Python dicts are insertion-ordered association lists
with unique keys; fallible Python code returns `Except PyError`.
-/

namespace HtmxSpec

/-- Universe of Python values manipulated by the middleware.  Dict keys are
restricted to strings (the only keys the code ever produces or serializes).
Floats never originate from the repository code; they can only arise from
`json.loads`, so they are represented by the literal lexeme that was parsed
(their IEEE semantics is never needed by the code under verification). -/
inductive PyVal where
  | str (s : String)
  | int (n : Int)
  | bool (b : Bool)
  | none
  | float (lexeme : String)
  | list (xs : List PyVal)
  | tuple (xs : List PyVal)
  | dict (entries : List (String × PyVal))

mutual

/-- Boolean equality on `PyVal` (structural). -/
def pvBeq : PyVal → PyVal → Bool
  | .str a, .str b => a == b
  | .int a, .int b => a == b
  | .bool a, .bool b => a == b
  | .none, .none => true
  | .float a, .float b => a == b
  | .list a, .list b => pvBeqList a b
  | .tuple a, .tuple b => pvBeqList a b
  | .dict a, .dict b => pvBeqEntries a b
  | _, _ => false

/-- Boolean equality on lists of `PyVal`. -/
def pvBeqList : List PyVal → List PyVal → Bool
  | [], [] => true
  | a :: as, b :: bs => pvBeq a b && pvBeqList as bs
  | _, _ => false

/-- Boolean equality on association lists of `PyVal`. -/
def pvBeqEntries : List (String × PyVal) → List (String × PyVal) → Bool
  | [], [] => true
  | (k, v) :: as, (k', v') :: bs => k == k' && pvBeq v v' && pvBeqEntries as bs
  | _, _ => false

end

mutual

def pvBeq_refl : ∀ a, pvBeq a a = true
  | .str a => by simp [pvBeq]
  | .int a => by simp [pvBeq]
  | .bool a => by simp [pvBeq]
  | .none => by simp [pvBeq]
  | .float a => by simp [pvBeq]
  | .list xs => by simp [pvBeq, pvBeqList_refl xs]
  | .tuple xs => by simp [pvBeq, pvBeqList_refl xs]
  | .dict d => by simp [pvBeq, pvBeqEntries_refl d]

def pvBeqList_refl : ∀ xs, pvBeqList xs xs = true
  | [] => by simp [pvBeqList]
  | x :: xs => by simp [pvBeqList, pvBeq_refl x, pvBeqList_refl xs]

def pvBeqEntries_refl : ∀ d, pvBeqEntries d d = true
  | [] => by simp [pvBeqEntries]
  | (k, v) :: d => by simp [pvBeqEntries, pvBeq_refl v, pvBeqEntries_refl d]

end

mutual

def pvBeq_eq : ∀ a b, pvBeq a b = true → a = b
  | .str a, .str b => by simp [pvBeq]
  | .int a, .int b => by simp [pvBeq]
  | .bool a, .bool b => by simp [pvBeq]
  | .none, .none => by simp
  | .float a, .float b => by simp [pvBeq]
  | .list a, .list b => by
    simp only [pvBeq]; intro h; exact congrArg PyVal.list (pvBeqList_eq a b h)
  | .tuple a, .tuple b => by
    simp only [pvBeq]; intro h; exact congrArg PyVal.tuple (pvBeqList_eq a b h)
  | .dict a, .dict b => by
    simp only [pvBeq]; intro h; exact congrArg PyVal.dict (pvBeqEntries_eq a b h)
  | .str _, .int _ => by simp [pvBeq]
  | .str _, .bool _ => by simp [pvBeq]
  | .str _, .none => by simp [pvBeq]
  | .str _, .float _ => by simp [pvBeq]
  | .str _, .list _ => by simp [pvBeq]
  | .str _, .tuple _ => by simp [pvBeq]
  | .str _, .dict _ => by simp [pvBeq]
  | .int _, .str _ => by simp [pvBeq]
  | .int _, .bool _ => by simp [pvBeq]
  | .int _, .none => by simp [pvBeq]
  | .int _, .float _ => by simp [pvBeq]
  | .int _, .list _ => by simp [pvBeq]
  | .int _, .tuple _ => by simp [pvBeq]
  | .int _, .dict _ => by simp [pvBeq]
  | .bool _, .str _ => by simp [pvBeq]
  | .bool _, .int _ => by simp [pvBeq]
  | .bool _, .none => by simp [pvBeq]
  | .bool _, .float _ => by simp [pvBeq]
  | .bool _, .list _ => by simp [pvBeq]
  | .bool _, .tuple _ => by simp [pvBeq]
  | .bool _, .dict _ => by simp [pvBeq]
  | .none, .str _ => by simp [pvBeq]
  | .none, .int _ => by simp [pvBeq]
  | .none, .bool _ => by simp [pvBeq]
  | .none, .float _ => by simp [pvBeq]
  | .none, .list _ => by simp [pvBeq]
  | .none, .tuple _ => by simp [pvBeq]
  | .none, .dict _ => by simp [pvBeq]
  | .float _, .str _ => by simp [pvBeq]
  | .float _, .int _ => by simp [pvBeq]
  | .float _, .bool _ => by simp [pvBeq]
  | .float _, .none => by simp [pvBeq]
  | .float _, .list _ => by simp [pvBeq]
  | .float _, .tuple _ => by simp [pvBeq]
  | .float _, .dict _ => by simp [pvBeq]
  | .list _, .str _ => by simp [pvBeq]
  | .list _, .int _ => by simp [pvBeq]
  | .list _, .bool _ => by simp [pvBeq]
  | .list _, .none => by simp [pvBeq]
  | .list _, .float _ => by simp [pvBeq]
  | .list _, .tuple _ => by simp [pvBeq]
  | .list _, .dict _ => by simp [pvBeq]
  | .tuple _, .str _ => by simp [pvBeq]
  | .tuple _, .int _ => by simp [pvBeq]
  | .tuple _, .bool _ => by simp [pvBeq]
  | .tuple _, .none => by simp [pvBeq]
  | .tuple _, .float _ => by simp [pvBeq]
  | .tuple _, .list _ => by simp [pvBeq]
  | .tuple _, .dict _ => by simp [pvBeq]
  | .dict _, .str _ => by simp [pvBeq]
  | .dict _, .int _ => by simp [pvBeq]
  | .dict _, .bool _ => by simp [pvBeq]
  | .dict _, .none => by simp [pvBeq]
  | .dict _, .float _ => by simp [pvBeq]
  | .dict _, .list _ => by simp [pvBeq]
  | .dict _, .tuple _ => by simp [pvBeq]

def pvBeqList_eq : ∀ a b, pvBeqList a b = true → a = b
  | [], [] => by simp
  | a :: as, b :: bs => by
    simp only [pvBeqList, Bool.and_eq_true]
    rintro ⟨h1, h2⟩
    rw [pvBeq_eq a b h1, pvBeqList_eq as bs h2]
  | [], _ :: _ => by simp [pvBeqList]
  | _ :: _, [] => by simp [pvBeqList]

def pvBeqEntries_eq : ∀ a b, pvBeqEntries a b = true → a = b
  | [], [] => by simp
  | (k, v) :: as, (k', v') :: bs => by
    simp only [pvBeqEntries, Bool.and_eq_true]
    rintro ⟨⟨hk, hv⟩, h2⟩
    rw [pvBeq_eq v v' hv, pvBeqEntries_eq as bs h2, eq_of_beq hk]
  | [], _ :: _ => by simp [pvBeqEntries]
  | _ :: _, [] => by simp [pvBeqEntries]

end

instance : DecidableEq PyVal := fun a b =>
  decidable_of_iff (pvBeq a b = true)
    ⟨pvBeq_eq a b, by rintro rfl; exact pvBeq_refl a⟩

/-- ASCII whitespace recognized by Python `str.strip()` (Unicode whitespace
beyond ASCII is outside the modelled character set of the spec's examples). -/
def isPySpace (c : Char) : Bool :=
  c == ' ' || c == '\t' || c == '\n' || c == '\r' || c == '\x0b' || c == '\x0c'

/-- Characters of a string with leading and trailing whitespace removed. -/
def trimChars (cs : List Char) : List Char :=
  ((cs.dropWhile isPySpace).reverse.dropWhile isPySpace).reverse

/-- Python `str.strip()`. -/
def pyStrip (s : String) : String :=
  String.mk (trimChars s.data)

/-- Python `str.split(",")` on the character level: split at every comma. -/
def splitCommaChars : List Char → List (List Char)
  | [] => [[]]
  | c :: rest =>
    let r := splitCommaChars rest
    if c = ',' then [] :: r
    else
      match r with
      | [] => [[c]]
      | t :: ts => (c :: t) :: ts

/-- Python `s.split(",")`. -/
def pySplitComma (s : String) : List String :=
  (splitCommaChars s.data).map String.mk

/-- Characters of `",".join(parts)`. -/
def joinCommaChars : List (List Char) → List Char
  | [] => []
  | [x] => x
  | x :: xs => x ++ ',' :: joinCommaChars xs

/-- Python `",".join(parts)`. -/
def pyJoinComma (parts : List String) : String :=
  String.mk (joinCommaChars (parts.map String.data))

/-- Python `str.capitalize()`: first character uppercased, the rest lowered. -/
def pyCapitalize (s : String) : String :=
  match s.data with
  | [] => ""
  | c :: rest => String.mk (c.toUpper :: rest.map Char.toLower)

/-- The apostrophe character (used by Python `repr` of strings and by the
dispatch error message). -/
def squote : Char := Char.ofNat 39

/-- Lookup in an insertion-ordered association list (Python `d[k]` /
`d.get(k)`; first binding wins, matching a Python dict whose keys are
unique). -/
def alLookup {α : Type} : List (String × α) → String → Option α
  | [], _ => Option.none
  | (k', v) :: rest, k => if k' = k then some v else alLookup rest k

/-- Python `d[k] = v` on an insertion-ordered dict: an existing key keeps its
position and gets the new value, a new key is appended. -/
def dictInsert {α : Type} : List (String × α) → String → α → List (String × α)
  | [], k, v => [(k, v)]
  | (k', v') :: rest, k, v =>
    if k' = k then (k, v) :: rest else (k', v') :: dictInsert rest k v

/-- Rebuild a dict by inserting each entry in order (the effect of Python
`dict(...)` / `{**d}` on a sequence of bindings). -/
def dictFromList {α : Type} (d : List (String × α)) : List (String × α) :=
  d.foldl (fun acc kv => dictInsert acc kv.1 kv.2) []

/-- Python `{**d1, **d2}`: start from `d1`'s bindings and insert `d2`'s
bindings in order, so `d2` overwrites `d1` on key collisions (right-biased). -/
def pyUpdate {α : Type} (d1 d2 : List (String × α)) : List (String × α) :=
  d2.foldl (fun acc kv => dictInsert acc kv.1 kv.2) (dictFromList d1)

/-- Keys of an association list, in order. -/
def alKeys {α : Type} (d : List (String × α)) : List String :=
  d.map Prod.fst

/-- The keys of an association list are pairwise distinct (always true of a
genuine Python dict). -/
def NodupKeys {α : Type} (d : List (String × α)) : Prop :=
  (alKeys d).Nodup

/-- A float literal denotes zero when, ignoring sign and exponent, its digits
are all `0` (e.g. `0.0`, `-0e5`).  `NaN`/`Infinity` lexemes are nonzero. -/
def floatLexemeIsZero (lx : String) : Bool :=
  let cs := match lx.data with
    | '-' :: rest => rest
    | cs => cs
  let mantissa := cs.takeWhile (fun c => c != 'e' && c != 'E')
  mantissa.all (fun c => c == '0' || c == '.')

/-- Python truthiness of a value (`bool(v)`). -/
def pyTruthy : PyVal → Bool
  | .str s => s ≠ ""
  | .int n => n ≠ 0
  | .bool b => b
  | .none => false
  | .float lx => !floatLexemeIsZero lx
  | .list xs => !xs.isEmpty
  | .tuple xs => !xs.isEmpty
  | .dict d => !d.isEmpty

/-! ## JSON serialization (`json.dumps` with default options) -/

/-- Lowercase hex digit for a value below 16. -/
def hexDigitChar (n : Nat) : Char :=
  if n < 10 then Char.ofNat (48 + n) else Char.ofNat (87 + n)

/-- Four lowercase hex digits of a value below `0x10000`. -/
def hex4 (n : Nat) : List Char :=
  [hexDigitChar (n / 4096 % 16), hexDigitChar (n / 256 % 16),
   hexDigitChar (n / 16 % 16), hexDigitChar (n % 16)]

/-- Escape of one character in a JSON string, as produced by Python
`json.dumps` with its default `ensure_ascii=True`: printable ASCII other than
quote and backslash is literal, the named control characters use short
escapes, all other characters become `\uXXXX` (a surrogate pair for code
points above `0xFFFF`). -/
def escapeChar (c : Char) : List Char :=
  let n := c.toNat
  if c = '"' then ['\\', '"']
  else if c = '\\' then ['\\', '\\']
  else if c = '\n' then ['\\', 'n']
  else if c = '\r' then ['\\', 'r']
  else if c = '\t' then ['\\', 't']
  else if c = '\x08' then ['\\', 'b']
  else if c = '\x0c' then ['\\', 'f']
  else if n < 32 then '\\' :: 'u' :: hex4 n
  else if n < 127 then [c]
  else if n < 65536 then '\\' :: 'u' :: hex4 n
  else
    '\\' :: 'u' :: hex4 (55296 + (n - 65536) / 1024) ++
      '\\' :: 'u' :: hex4 (56320 + (n - 65536) % 1024)

/-- Characters of the JSON encoding of a string body. -/
def escapeString (s : String) : List Char :=
  s.data.flatMap escapeChar

mutual

/-- Characters produced by Python `json.dumps(v)` with the default separators
`", "` and `": "`.  Tuples serialize as arrays; float values reuse the lexeme
they were parsed from. -/
def dumpChars : PyVal → List Char
  | .str s => '"' :: (escapeString s ++ ['"'])
  | .int n => (toString n).data
  | .bool b => if b then ['t', 'r', 'u', 'e'] else ['f', 'a', 'l', 's', 'e']
  | .none => ['n', 'u', 'l', 'l']
  | .float lx => lx.data
  | .list xs => '[' :: (dumpElems xs ++ [']'])
  | .tuple xs => '[' :: (dumpElems xs ++ [']'])
  | .dict d => '{' :: (dumpMembers d ++ ['}'])

/-- Array elements joined by `", "`. -/
def dumpElems : List PyVal → List Char
  | [] => []
  | [x] => dumpChars x
  | x :: xs => dumpChars x ++ ',' :: ' ' :: dumpElems xs

/-- Object members `"key": value` joined by `", "`. -/
def dumpMembers : List (String × PyVal) → List Char
  | [] => []
  | [(k, v)] => '"' :: (escapeString k ++ '"' :: ':' :: ' ' :: dumpChars v)
  | (k, v) :: rest =>
    '"' :: (escapeString k ++ '"' :: ':' :: ' ' :: dumpChars v) ++
      ',' :: ' ' :: dumpMembers rest

end

/-- Python `json.dumps(v)`. -/
def json_dumps (v : PyVal) : String :=
  String.mk (dumpChars v)

/-! ## JSON parsing (`json.loads`)

A strict recursive-descent parser for the JSON accepted by Python's default
`json.loads`: the standard grammar plus the `NaN`/`Infinity`/`-Infinity`
extensions.  Numbers with a fraction or exponent (Python floats) are kept as
their lexeme in `PyVal.float`.  A lone surrogate escape, which CPython would
keep as an unpaired surrogate code unit, is rejected here because such a
string has no well-formed-Unicode counterpart. -/

/-- JSON whitespace. -/
def jsonWs (c : Char) : Bool :=
  c == ' ' || c == '\t' || c == '\n' || c == '\r'

/-- Drop leading JSON whitespace. -/
def skipWs (cs : List Char) : List Char :=
  cs.dropWhile jsonWs

/-- Value of one hex digit. -/
def hexVal (c : Char) : Option Nat :=
  if '0' ≤ c ∧ c ≤ '9' then some (c.toNat - 48)
  else if 'a' ≤ c ∧ c ≤ 'f' then some (c.toNat - 87)
  else if 'A' ≤ c ∧ c ≤ 'F' then some (c.toNat - 55)
  else Option.none

/-- Value of four hex digits. -/
def hexVal4 (a b c d : Char) : Option Nat :=
  match hexVal a, hexVal b, hexVal c, hexVal d with
  | some x, some y, some z, some w => some (x * 4096 + y * 256 + z * 16 + w)
  | _, _, _, _ => Option.none

mutual

/-- Parse the body of a JSON string after the opening quote into UTF-16-style
code units (escapes decoded, literal characters as their code points);
returns the units and the input after the closing quote. -/
def parseStringUnits : List Char → Option (List Nat × List Char)
  | [] => Option.none
  | c :: rest =>
    if c = '"' then some ([], rest)
    else if c = '\\' then parseEscapeUnit rest
    else if c.toNat < 32 then Option.none
    else (parseStringUnits rest).map (fun p => (c.toNat :: p.1, p.2))

/-- Decode one escape sequence (input positioned after the backslash). -/
def parseEscapeUnit : List Char → Option (List Nat × List Char)
  | '"' :: r => (parseStringUnits r).map (fun p => (34 :: p.1, p.2))
  | '\\' :: r => (parseStringUnits r).map (fun p => (92 :: p.1, p.2))
  | '/' :: r => (parseStringUnits r).map (fun p => (47 :: p.1, p.2))
  | 'b' :: r => (parseStringUnits r).map (fun p => (8 :: p.1, p.2))
  | 'f' :: r => (parseStringUnits r).map (fun p => (12 :: p.1, p.2))
  | 'n' :: r => (parseStringUnits r).map (fun p => (10 :: p.1, p.2))
  | 'r' :: r => (parseStringUnits r).map (fun p => (13 :: p.1, p.2))
  | 't' :: r => (parseStringUnits r).map (fun p => (9 :: p.1, p.2))
  | 'u' :: a :: b :: c :: d :: r =>
    (match hexVal4 a b c d with
    | some n => (parseStringUnits r).map (fun p => (n :: p.1, p.2))
    | Option.none => Option.none)
  | _ => Option.none

end

mutual

/-- Recombine surrogate pairs produced by `\uXXXX` escapes into characters.
A lone surrogate is rejected (CPython would keep an unpaired surrogate code
unit, which has no well-formed-Unicode counterpart). -/
def combineSurrogates : List Nat → Option (List Char)
  | [] => some []
  | n :: rest =>
    if 55296 ≤ n ∧ n < 56320 then combineLowSurrogate n rest
    else if 56320 ≤ n ∧ n < 57344 then Option.none
    else (combineSurrogates rest).map (fun cs => Char.ofNat n :: cs)

/-- After a high surrogate, require and combine the following low surrogate. -/
def combineLowSurrogate (n : Nat) : List Nat → Option (List Char)
  | [] => Option.none
  | m :: rest =>
    if 56320 ≤ m ∧ m < 57344 then
      (combineSurrogates rest).map
        (fun cs => Char.ofNat (65536 + (n - 55296) * 1024 + (m - 56320)) :: cs)
    else Option.none

end

/-- Parse the body of a JSON string after the opening quote; returns the
decoded characters and the input after the closing quote. -/
def parseStringBody (cs : List Char) : Option (List Char × List Char) :=
  match parseStringUnits cs with
  | some (units, rest) =>
    (match combineSurrogates units with
    | some chars => some (chars, rest)
    | Option.none => Option.none)
  | Option.none => Option.none

/-- Code units emitted by the escape of one character (a surrogate pair for
code points above 0xFFFF, the code point itself otherwise). -/
def escUnits (c : Char) : List Nat :=
  if c.toNat < 65536 then [c.toNat]
  else [55296 + (c.toNat - 65536) / 1024, 56320 + (c.toNat - 65536) % 1024]

/-- Decimal value of a digit list. -/
def decValue (ds : List Char) : Nat :=
  ds.foldl (fun a c => a * 10 + (c.toNat - 48)) 0

/-- Parse a JSON number (after an optional leading minus already removed):
integer part, optional fraction, optional exponent.  Returns the consumed
lexeme (without sign), whether the number is integral, and the rest. -/
def parseNumBody (cs : List Char) : Option (List Char × Bool × List Char) :=
  match cs with
  | [] => Option.none
  | c :: rest =>
    if ¬ c.isDigit then Option.none
    else
      let intDigits := if c = '0' then [c] else c :: rest.takeWhile Char.isDigit
      let r1 := if c = '0' then rest else rest.dropWhile Char.isDigit
      match r1 with
      | '.' :: r2 =>
        let fr := r2.takeWhile Char.isDigit
        if fr.isEmpty then Option.none
        else
          let r3 := r2.dropWhile Char.isDigit
          match r3 with
          | e :: r4 =>
            if e = 'e' ∨ e = 'E' then
              match parseExp r4 with
              | some (ex, r5) =>
                some (intDigits ++ '.' :: fr ++ e :: ex, false, r5)
              | Option.none => Option.none
            else some (intDigits ++ '.' :: fr, false, r3)
          | [] => some (intDigits ++ '.' :: fr, false, r3)
      | e :: r2 =>
        if e = 'e' ∨ e = 'E' then
          match parseExp r2 with
          | some (ex, r3) => some (intDigits ++ e :: ex, false, r3)
          | Option.none => Option.none
        else some (intDigits, true, r1)
      | [] => some (intDigits, true, r1)
where
  /-- Parse an exponent body: optional sign then one or more digits. -/
  parseExp (cs : List Char) : Option (List Char × List Char) :=
    let (sign, r) := match cs with
      | '+' :: r => ([('+' : Char)], r)
      | '-' :: r => ([('-' : Char)], r)
      | r => ([], r)
    let ds := r.takeWhile Char.isDigit
    if ds.isEmpty then Option.none
    else some (sign ++ ds, r.dropWhile Char.isDigit)

mutual

/-- Parse one JSON value; `fuel` bounds the recursion depth (callers pass the
input length plus one, which always suffices because every recursive call
consumes at least one character first). -/
def parseVal : Nat → List Char → Option (PyVal × List Char)
  | 0, _ => Option.none
  | fuel + 1, cs =>
    match skipWs cs with
    | '{' :: rest =>
      match skipWs rest with
      | '}' :: r => some (.dict [], r)
      | r => parseMembers fuel [] r
    | '[' :: rest =>
      match skipWs rest with
      | ']' :: r => some (.list [], r)
      | r => parseElems fuel [] r
    | '"' :: rest => (parseStringBody rest).map (fun p => (.str (String.mk p.1), p.2))
    | 't' :: 'r' :: 'u' :: 'e' :: rest => some (.bool true, rest)
    | 'f' :: 'a' :: 'l' :: 's' :: 'e' :: rest => some (.bool false, rest)
    | 'n' :: 'u' :: 'l' :: 'l' :: rest => some (.none, rest)
    | 'N' :: 'a' :: 'N' :: rest => some (.float "NaN", rest)
    | 'I' :: 'n' :: 'f' :: 'i' :: 'n' :: 'i' :: 't' :: 'y' :: rest =>
      some (.float "Infinity", rest)
    | '-' :: 'I' :: 'n' :: 'f' :: 'i' :: 'n' :: 'i' :: 't' :: 'y' :: rest =>
      some (.float "-Infinity", rest)
    | '-' :: rest =>
      match parseNumBody rest with
      | some (lx, isInt, r) =>
        if isInt then some (.int (-(decValue lx : Int)), r)
        else some (.float (String.mk ('-' :: lx)), r)
      | Option.none => Option.none
    | cs' =>
      match parseNumBody cs' with
      | some (lx, isInt, r) =>
        if isInt then some (.int (decValue lx), r)
        else some (.float (String.mk lx), r)
      | Option.none => Option.none

/-- Parse the members of an object (input positioned at a key, whitespace
already skipped); duplicate keys follow Python: the later binding wins. -/
def parseMembers : Nat → List (String × PyVal) → List Char →
    Option (PyVal × List Char)
  | 0, _, _ => Option.none
  | fuel + 1, acc, cs =>
    match cs with
    | '"' :: rest =>
      match parseStringBody rest with
      | some (kcs, r1) =>
        match skipWs r1 with
        | ':' :: r2 =>
          match parseVal fuel r2 with
          | some (v, r3) =>
            let acc' := dictInsert acc (String.mk kcs) v
            match skipWs r3 with
            | ',' :: r4 => parseMembers fuel acc' (skipWs r4)
            | '}' :: r4 => some (.dict acc', r4)
            | _ => Option.none
          | Option.none => Option.none
        | _ => Option.none
      | Option.none => Option.none
    | _ => Option.none

/-- Parse the elements of an array (input positioned at a value). -/
def parseElems : Nat → List PyVal → List Char → Option (PyVal × List Char)
  | 0, _, _ => Option.none
  | fuel + 1, acc, cs =>
    match parseVal fuel cs with
    | some (v, r1) =>
      match skipWs r1 with
      | ',' :: r2 => parseElems fuel (acc ++ [v]) r2
      | ']' :: r2 => some (.list (acc ++ [v]), r2)
      | _ => Option.none
    | Option.none => Option.none

end

/-- Python `json.loads(s)`: parse one JSON value and require only whitespace
after it; any failure is a `JSONDecodeError`, modelled as `Option.none`. -/
def json_loads (s : String) : Option PyVal :=
  match parseVal (s.data.length + 1) s.data with
  | some (v, rest) => if skipWs rest = [] then some v else Option.none
  | Option.none => Option.none

/-! ## Python `str()` / `repr()` of values (used by `events_to_dict`'s
token normalization, which applies `str(s)` to iterable elements) -/

mutual

/-- Python `repr(v)`.  String quoting follows Python's preference for single
quotes; escaping of quotes and control characters inside the string is not
modelled (no claim depends on the repr of such strings). -/
def pyRepr : PyVal → String
  | .str s =>
    if s.data.contains squote ∧ ¬ s.data.contains '"' then "\"" ++ s ++ "\""
    else String.mk [squote] ++ s ++ String.mk [squote]
  | .int n => toString n
  | .bool b => if b then "True" else "False"
  | .none => "None"
  | .float lx => lx
  | .list xs => "[" ++ pyReprItems xs ++ "]"
  | .tuple [x] => "(" ++ pyRepr x ++ ",)"
  | .tuple xs => "(" ++ pyReprItems xs ++ ")"
  | .dict d => String.mk ['{'] ++ pyReprEntries d ++ String.mk ['}']

/-- Comma-joined reprs of container items. -/
def pyReprItems : List PyVal → String
  | [] => ""
  | [x] => pyRepr x
  | x :: xs => pyRepr x ++ ", " ++ pyReprItems xs

/-- Comma-joined `key: value` reprs of dict entries. -/
def pyReprEntries : List (String × PyVal) → String
  | [] => ""
  | [(k, v)] => pyRepr (.str k) ++ ": " ++ pyRepr v
  | (k, v) :: rest => pyRepr (.str k) ++ ": " ++ pyRepr v ++ ", " ++ pyReprEntries rest

end

/-- Python `str(v)`: identity on strings, `repr` otherwise (for the value
shapes in this universe). -/
def pyStr : PyVal → String
  | .str s => s
  | v => pyRepr v

/-! ## `middleware.py`: event merging -/

/-- Python exceptions raised by the modelled code. -/
inductive PyError where
  | valueError (msg : String)
  | attributeError (msg : String)
  | typeError (msg : String)
  | validationError
deriving DecidableEq

/-- Inner helper `to_dict` of `events_to_dict`:
`{k: "" for k in (str(s).strip() for s in itr) if k not in ("", None)}` —
trim each token's string form, drop empty tokens, map survivors to the empty
detail (first occurrence keeps its position). -/
def to_dict (itr : List PyVal) : List (String × PyVal) :=
  ((itr.map (fun s => pyStrip (pyStr s))).filter (fun k => k ≠ "")).foldl
    (fun d k => dictInsert d k (.str "")) []

/-- Function `events_to_dict` from middleware.py: a string input is first JSON-decoded
(decode failure keeps the raw string); then a string becomes its
comma-separated trimmed tokens with empty details, a mapping is returned
as-is, any other iterable gets the token treatment, `None` gives an empty
dict, and anything else raises `ValueError`. -/
def events_to_dict (ev : PyVal) : Except PyError (List (String × PyVal)) :=
  let ev' := match ev with
    | .str s =>
      match json_loads s with
      | some v => v
      | Option.none => .str s
    | v => v
  match ev' with
  | .str s => .ok (to_dict ((pySplitComma s).map PyVal.str))
  | .dict d => .ok d
  | .list xs => .ok (to_dict xs)
  | .tuple xs => .ok (to_dict xs)
  | .none => .ok []
  | other => .error (.valueError ("Unexpected event type: " ++ pyRepr other))

/-- The merged dict `{**events_to_dict(events), **events_to_dict(new_events)}`
computed inside `merge_events` (right-biased on key collisions). -/
def merged_events_dict (events new_events : PyVal) :
    Except PyError (List (String × PyVal)) :=
  match events_to_dict events, events_to_dict new_events with
  | .ok d1, .ok d2 => .ok (pyUpdate d1 d2)
  | .error e, _ => .error e
  | .ok _, .error e => .error e

/-- Function `merge_events` from middleware.py: merge both inputs' event dicts
right-biased, then serialize — as a JSON object if at least one merged detail
is truthy, otherwise as the comma-joined key list. -/
def merge_events (events new_events : PyVal) : Except PyError String :=
  match merged_events_dict events new_events with
  | .ok merged =>
    if merged.any (fun kv => pyTruthy kv.2) then .ok (json_dumps (.dict merged))
    else .ok (pyJoinComma (alKeys merged))
  | .error e => .error e

/-! ## `middleware.py`: response header mutators -/

/-- An HTTP response, reduced to its header map.  Django header access is
case-insensitive and setting a header replaces an existing one in place. -/
structure Response where
  headers : List (String × String)
deriving DecidableEq

/-- Lowercased form of a header name (character-by-character `str.lower`). -/
def lowerStr (s : String) : String :=
  String.mk (s.data.map Char.toLower)

/-- Case-insensitive header-name comparison. -/
def ciEq (a b : String) : Bool :=
  lowerStr a == lowerStr b

/-- Read a header (`response.get(name)`). -/
def Response.get (r : Response) (name : String) : Option String :=
  (r.headers.find? (fun kv => ciEq kv.1 name)).map Prod.snd

/-- Replace-or-append for header lists. -/
def setHeader : List (String × String) → String → String → List (String × String)
  | [], n, v => [(n, v)]
  | (n', v') :: rest, n, v =>
    if ciEq n' n then (n, v) :: rest else (n', v') :: setHeader rest n v

/-- Write a header (`response[name] = value`). -/
def Response.set (r : Response) (name value : String) : Response :=
  ⟨setHeader r.headers name value⟩

/-- Function `reselect` from middleware.py: set the `HX-Reselect` header and return
the response. -/
def reselect (response : Response) (select : String) : Response :=
  response.set "HX-Reselect" select

/-- The header name `retrigger` writes:
`f"HX-Trigger{f'-After-{after.capitalize()}' if after else ''}"`. -/
def retriggerHeader (after : Option String) : String :=
  "HX-Trigger" ++
    (match after with
     | some a => if a = "" then "" else "-After-" ++ pyCapitalize a
     | Option.none => "")

/-- The existing value of a header, as the `MergeInput` that `retrigger`
passes to `merge_events` (`response.get(header)` is `None` when absent). -/
def headerAsMergeInput (response : Response) (header : String) : PyVal :=
  match response.get header with
  | some s => PyVal.str s
  | Option.none => PyVal.none

/-- Function `retrigger` from middleware.py: pick the header according to `after`,
merge the new events with the header's existing value, write the result
back, and return the response. -/
def retrigger (response : Response) (after : Option String) (events : PyVal) :
    Except PyError Response :=
  let header := retriggerHeader after
  match merge_events (headerAsMergeInput response header) events with
  | .ok merged => .ok (response.set header merged)
  | .error e => .error e

/-! ## `middleware.py`: pending-operations registration -/

/-- An HTTP request, reduced to what the modelled code reads and writes: the
`config` GET parameter and the dynamically attached `functions_to_process`
attribute (absent until first registration). -/
structure Request where
  config : Option String
  functions_to_process : Option PyVal
deriving DecidableEq

/-- Function `modify_htmx_response` from middleware.py: merge `htmx_funcs` into the
request's pending-operations attribute, creating it on first use.  When the
existing attribute and the argument are both dicts this is Python's
right-biased `dict.update`; `update` on a non-dict attribute (no such
method) or with a non-dict argument raises, modelled as errors (no modelled
call site reaches those cases). -/
def modify_htmx_response (request : Request) (htmx_funcs : PyVal) :
    Except PyError Request :=
  match request.functions_to_process with
  | some (.dict d) =>
    match htmx_funcs with
    | .dict new =>
      .ok { request with functions_to_process := some (.dict (pyUpdate d new)) }
    | _ => .error (.typeError "dict.update argument is not a mapping")
  | some _ => .error (.attributeError "update")
  | Option.none => .ok { request with functions_to_process := some htmx_funcs }

/-- Function `_request_configures_response` from middleware.py: JSON-decode the
`config` GET parameter (an absent parameter raises `TypeError` inside
`json.loads`, malformed JSON raises `JSONDecodeError`; both are caught and
leave `config = None`), then register the decoded operations when truthy. -/
def _request_configures_response (request : Request) : Except PyError Request :=
  let config := match request.config with
    | Option.none => Option.none
    | some s => json_loads s
  match config with
  | some v => if pyTruthy v then modify_htmx_response request v else .ok request
  | Option.none => .ok request

/-! ## `middleware.py`: dynamic dispatch of pending operations -/

/-- Shape in which `process_htmx_response` passes registered arguments to a
resolved function: keyword-spread, positional-spread, or one positional
argument. -/
inductive CallArgs where
  | kwargs (entries : List (String × PyVal))
  | positional (xs : List PyVal)
  | single (v : PyVal)
deriving DecidableEq

/-- The `isinstance` chain of `process_htmx_response`: a dict is spread as
keyword arguments, a list is spread positionally, anything else is passed as
a single positional argument. -/
def callShape : PyVal → CallArgs
  | .dict d => .kwargs d
  | .list xs => .positional xs
  | v => .single v

/-- Argument-passing discipline as the spec words it, for comparison with
`callShape`: a mapping is spread as keywords, an ordered sequence is spread
positionally, anything else is one positional argument. -/
def specArgShape : PyVal → CallArgs
  | .dict d => .kwargs d
  | .list xs => .positional xs
  | .tuple xs => .positional xs
  | v => .single v

/-- A Python module as the dispatcher sees it: its function attributes.  A
function receives the current response plus the shaped arguments and returns
the next response (or raises). -/
structure PyModule where
  funcs : List (String × (Response → CallArgs → Except PyError Response))

/-- The import machinery as used by `process_htmx_response`:
`importlib.util.find_spec` results, plus the current module
(`sys.modules[__name__]`) and its dotted name (`__name__`). -/
structure ImportEnv where
  modules : List (String × PyModule)
  currentName : String
  current : PyModule

/-- Split an operation name into module and function parts: a dotted name is
split at its last dot (`func_name.rsplit(".", 1)`), a bare name pairs with
the current module's name. -/
def splitFuncName (currentName name : String) : String × String :=
  if name.data.contains '.' then
    let rev := name.data.reverse
    let fn := (rev.takeWhile (fun c => c ≠ '.')).reverse
    let md := ((rev.dropWhile (fun c => c ≠ '.')).drop 1).reverse
    (String.mk md, String.mk fn)
  else (currentName, name)

/-- Module resolution in `process_htmx_response`: a module whose spec is
found is loaded; when `find_spec` yields nothing the dispatcher falls back to
the current module. -/
def resolveModule (env : ImportEnv) (moduleName : String) : PyModule :=
  match alLookup env.modules moduleName with
  | some m => m
  | Option.none => env.current

/-- The exact message of the dispatcher's `AttributeError`. -/
def missingFuncMsg (funcName moduleName : String) : String :=
  "Function " ++ String.mk [squote] ++ funcName ++ String.mk [squote] ++
    " not found in module " ++ String.mk [squote] ++ moduleName ++
    String.mk [squote] ++ " or current file"

/-- Function `process_htmx_response` from middleware.py: walk the pending operations
in insertion order; resolve each name to a function, call it with the
response and the shaped arguments, and thread its return value into the next
operation; a name that resolves to no function aborts with an
`AttributeError` naming the function and module. -/
def process_htmx_response (env : ImportEnv) (response : Response)
    (functions_to_process : List (String × PyVal)) : Except PyError Response :=
  match functions_to_process with
  | [] => .ok response
  | (name, args) :: rest =>
    match alLookup
        (resolveModule env (splitFuncName env.currentName name).1).funcs
        (splitFuncName env.currentName name).2 with
    | some f =>
      match f response (callShape args) with
      | .ok r => process_htmx_response env r rest
      | .error e => .error e
    | Option.none =>
      .error (.attributeError
        (missingFuncMsg (splitFuncName env.currentName name).2
          (splitFuncName env.currentName name).1))

/-! ## `forms.py`: the dynamic choice field -/

/-- Function `is_not_none` from forms.py, at the `choice_url` use site: true unless
the value is `None` or the empty string. -/
def is_not_none : Option String → Bool
  | Option.none => false
  | some s => s ≠ ""

/-- The validation-relevant state of a `DynamicHXChoiceField` instance: its
choice list and its `allow_new_choices` attribute, which `__init__` may leave
unassigned (`Option.none`). -/
structure ChoiceFieldState where
  choices : List (String × String)
  allow_new_choices : Option Bool
deriving DecidableEq

/-- Method `DynamicHXChoiceField.__init__`: the `allow_new_choices` attribute is
assigned only on the branch that receives a usable `choice_url`; otherwise
the field is set up as a plain static choice field and the attribute is never
created. -/
def dynamicHXChoiceField_init (allow_new_choices : Bool)
    (choice_url : Option String) (choices : List (String × String)) :
    ChoiceFieldState :=
  if is_not_none choice_url then
    { choices := choices, allow_new_choices := some allow_new_choices }
  else
    { choices := choices, allow_new_choices := Option.none }

/-- Django's `ChoiceField.validate` (external dependency, modelled from its
documented contract as the spec directs): a submitted value must be among
the field's choices, otherwise a `ValidationError` is raised.  (The
`required`/empty-value handling of the real method is irrelevant to the
non-empty submissions the claims exercise.) -/
def choiceField_validate (choices : List (String × String)) (value : String) :
    Except PyError Unit :=
  if choices.any (fun c => c.1 = value) then .ok () else .error .validationError

/-- Method `DynamicHXChoiceField.validate`: reading `self.allow_new_choices` raises
`AttributeError` when `__init__` never assigned it; otherwise a value not in
the current choices is appended as a `(value, value)` choice when admission
is allowed, and standard validation then runs.  Returns the field state after
the call. -/
def dynamicHXChoiceField_validate (f : ChoiceFieldState) (value : String) :
    Except PyError ChoiceFieldState :=
  match f.allow_new_choices with
  | Option.none => .error (.attributeError "allow_new_choices")
  | some allowNew =>
    let f' :=
      if allowNew && !((f.choices.map Prod.fst).contains value) then
        { f with choices := f.choices ++ [(value, value)] }
      else f
    match choiceField_validate f'.choices value with
    | .ok _ => .ok f'
    | .error e => .error e

/-- Decidable equality for `Except` results (needed to evaluate the model at
concrete inputs). -/
instance {e a : Type} [DecidableEq e] [DecidableEq a] : DecidableEq (Except e a) :=
  fun x y =>
    match x, y with
    | .ok u, .ok v => decidable_of_iff (u = v) (by simp)
    | .error u, .error v => decidable_of_iff (u = v) (by simp)
    | .ok _, .error _ => isFalse (by simp)
    | .error _, .ok _ => isFalse (by simp)

instance {α : Type} (d : List (String × α)) : Decidable (NodupKeys d) := by
  unfold NodupKeys
  infer_instance

/-! ## Concrete dispatch environment used by the C6 analysis -/

/-- The shape in which the dispatcher passed its arguments, as a tag. -/
def shapeTag : CallArgs → String
  | .kwargs _ => "kwargs"
  | .positional _ => "positional"
  | .single _ => "single"

/-- A probe function that records the shape in which the dispatcher passed
its arguments into a response header. -/
def shapeRecorder : Response → CallArgs → Except PyError Response :=
  fun r a => .ok (r.set "X-Shape" (shapeTag a))

/-- A dispatch environment whose current module holds only the probe. -/
def recorderEnv : ImportEnv :=
  { modules := [], currentName := "tests.htmx_clone.middleware",
    current := ⟨[("record", shapeRecorder)]⟩ }

/-! ## Association-list lemmas -/

/-- Left-biased choice on options (`first ∨ second`). -/
def optOr {α : Type} : Option α → Option α → Option α
  | some a, _ => some a
  | Option.none, b => b

theorem alKeys_nil {α : Type} : alKeys ([] : List (String × α)) = [] := rfl

theorem alKeys_cons {α : Type} (k : String) (v : α) (d : List (String × α)) :
    alKeys ((k, v) :: d) = k :: alKeys d := rfl

theorem alLookup_isSome_iff {α : Type} (d : List (String × α)) (k : String) :
    (alLookup d k).isSome ↔ k ∈ alKeys d := by
  induction d with
  | nil => simp [alLookup, alKeys_nil]
  | cons kv rest ih =>
    obtain ⟨k', v⟩ := kv
    by_cases h : k' = k
    · subst h; simp [alLookup, alKeys_cons]
    · simp only [alLookup, if_neg h, ih, alKeys_cons, List.mem_cons]
      constructor
      · exact Or.inr
      · rintro (hk | hk)
        · exact absurd hk.symm h
        · exact hk

theorem alKeys_dictInsert {α : Type} (d : List (String × α)) (k : String) (v : α)
    (k' : String) :
    k' ∈ alKeys (dictInsert d k v) ↔ k' ∈ alKeys d ∨ k' = k := by
  induction d with
  | nil => simp [dictInsert, alKeys_nil, alKeys_cons]
  | cons kv rest ih =>
    obtain ⟨k0, v0⟩ := kv
    by_cases h : k0 = k <;>
      simp only [dictInsert, h, if_true, if_false, alKeys_cons, List.mem_cons, ih] <;>
      tauto

theorem alLookup_dictInsert_self {α : Type} (d : List (String × α)) (k : String)
    (v : α) : alLookup (dictInsert d k v) k = some v := by
  induction d with
  | nil => simp [dictInsert, alLookup]
  | cons kv rest ih =>
    obtain ⟨k0, v0⟩ := kv
    by_cases h : k0 = k <;> simp [dictInsert, alLookup, h, ih]

theorem alLookup_dictInsert_ne {α : Type} (d : List (String × α)) (k : String)
    (v : α) (k' : String) (h : k ≠ k') :
    alLookup (dictInsert d k v) k' = alLookup d k' := by
  induction d with
  | nil => simp [dictInsert, alLookup, h]
  | cons kv rest ih =>
    obtain ⟨k0, v0⟩ := kv
    by_cases h0 : k0 = k
    · subst h0; simp [dictInsert, alLookup, h]
    · simp [dictInsert, alLookup, h0, ih]

theorem nodupKeys_dictInsert {α : Type} (d : List (String × α)) (k : String)
    (v : α) (hd : NodupKeys d) : NodupKeys (dictInsert d k v) := by
  induction d with
  | nil => simp [dictInsert, NodupKeys, alKeys]
  | cons kv rest ih =>
    obtain ⟨k0, v0⟩ := kv
    simp only [NodupKeys, alKeys, List.map_cons, List.nodup_cons] at hd
    by_cases h0 : k0 = k
    · subst h0
      simpa [dictInsert, NodupKeys, alKeys] using hd
    · have := ih hd.2
      simp only [dictInsert, h0, if_false]
      simp only [NodupKeys, alKeys, List.map_cons, List.nodup_cons]
      refine ⟨fun hmem => ?_, this⟩
      have := (alKeys_dictInsert rest k v k0).mp (by simpa [alKeys] using hmem)
      rcases this with h | h
      · exact hd.1 (by simpa [alKeys] using h)
      · exact h0 h

theorem foldl_dictInsert_mem {α : Type} (l : List (String × α))
    (acc : List (String × α)) (k : String) :
    k ∈ alKeys (l.foldl (fun d kv => dictInsert d kv.1 kv.2) acc) ↔
      k ∈ alKeys acc ∨ k ∈ alKeys l := by
  induction l generalizing acc with
  | nil => simp [alKeys]
  | cons kv rest ih =>
    obtain ⟨k0, v0⟩ := kv
    rw [List.foldl_cons, ih, alKeys_dictInsert, alKeys_cons, List.mem_cons]
    tauto

theorem foldl_dictInsert_nodup {α : Type} (l : List (String × α))
    (acc : List (String × α)) (hacc : NodupKeys acc) :
    NodupKeys (l.foldl (fun d kv => dictInsert d kv.1 kv.2) acc) := by
  induction l generalizing acc with
  | nil => simpa [alKeys] using hacc
  | cons kv rest ih =>
    exact ih _ (nodupKeys_dictInsert _ _ _ hacc)

theorem nodupKeys_dictFromList {α : Type} (d : List (String × α)) :
    NodupKeys (dictFromList d) :=
  foldl_dictInsert_nodup d [] (by simp [NodupKeys, alKeys])

theorem nodupKeys_pyUpdate {α : Type} (d1 d2 : List (String × α)) :
    NodupKeys (pyUpdate d1 d2) :=
  foldl_dictInsert_nodup d2 _ (nodupKeys_dictFromList d1)

theorem alLookup_foldl_dictInsert {α : Type} (l : List (String × α))
    (acc : List (String × α)) (k : String) (hl : NodupKeys l) :
    alLookup (l.foldl (fun d kv => dictInsert d kv.1 kv.2) acc) k =
      optOr (alLookup l k) (alLookup acc k) := by
  induction l generalizing acc with
  | nil => simp [alLookup, optOr]
  | cons kv rest ih =>
    obtain ⟨k0, v0⟩ := kv
    simp only [NodupKeys, alKeys, List.map_cons, List.nodup_cons] at hl
    by_cases h : k0 = k
    · subst h
      have hnotin : alLookup rest k0 = Option.none := by
        cases hres : alLookup rest k0 with
        | none => rfl
        | some v =>
          exact absurd ((alLookup_isSome_iff rest k0).mp (by simp [hres]))
            (by simpa [alKeys] using hl.1)
      simp [List.foldl_cons, ih _ hl.2, hnotin, alLookup,
        alLookup_dictInsert_self, optOr]
    · simp [List.foldl_cons, ih _ hl.2, alLookup, h,
        alLookup_dictInsert_ne _ _ _ _ h]

theorem alLookup_dictFromList {α : Type} (d : List (String × α))
    (hd : NodupKeys d) (k : String) : alLookup (dictFromList d) k = alLookup d k := by
  have := alLookup_foldl_dictInsert d [] k hd
  simpa [dictFromList, alLookup, optOr] using
    this.trans (by cases alLookup d k <;> simp [optOr, alLookup])

theorem alLookup_pyUpdate {α : Type} (d1 d2 : List (String × α))
    (h1 : NodupKeys d1) (h2 : NodupKeys d2) (k : String) :
    alLookup (pyUpdate d1 d2) k = optOr (alLookup d2 k) (alLookup d1 k) := by
  unfold pyUpdate
  rw [alLookup_foldl_dictInsert d2 _ k h2, alLookup_dictFromList d1 h1 k]

theorem mem_alKeys_pyUpdate {α : Type} (d1 d2 : List (String × α)) (k : String) :
    k ∈ alKeys (pyUpdate d1 d2) ↔ k ∈ alKeys d1 ∨ k ∈ alKeys d2 := by
  unfold pyUpdate
  rw [foldl_dictInsert_mem]
  unfold dictFromList
  rw [foldl_dictInsert_mem]
  simp only [alKeys_nil, List.not_mem_nil, false_or]

/-! ## `to_dict` lemmas -/

theorem mem_dictInsert {α : Type} (d : List (String × α)) (k : String) (v : α) :
    ∀ kv, kv ∈ dictInsert d k v → kv ∈ d ∨ kv = (k, v) := by
  induction d with
  | nil => simp [dictInsert]
  | cons kv0 rest ih =>
    obtain ⟨k0, v0⟩ := kv0
    intro kv hkv
    by_cases h : k0 = k
    · simp only [dictInsert, h, if_true, List.mem_cons] at hkv
      rcases hkv with h1 | h1
      · right; exact h1
      · left; simp [h1]
    · simp only [dictInsert, h, if_false, List.mem_cons] at hkv
      rcases hkv with h1 | h1
      · left; simp [h1]
      · rcases ih kv h1 with h2 | h2
        · left; simp [h2]
        · right; exact h2

theorem foldl_dictInsertConst_mem {α : Type} (v0 : α) (l : List String)
    (acc : List (String × α)) (k : String) :
    k ∈ alKeys (l.foldl (fun d k' => dictInsert d k' v0) acc) ↔
      k ∈ alKeys acc ∨ k ∈ l := by
  induction l generalizing acc with
  | nil => simp
  | cons k0 rest ih =>
    rw [List.foldl_cons, ih, alKeys_dictInsert, List.mem_cons]
    tauto

theorem foldl_dictInsertConst_values {α : Type} (v0 : α) (l : List String)
    (acc : List (String × α)) (hacc : ∀ kv, kv ∈ acc → kv.2 = v0) :
    ∀ kv, kv ∈ l.foldl (fun d k' => dictInsert d k' v0) acc → kv.2 = v0 := by
  induction l generalizing acc with
  | nil => exact hacc
  | cons k0 rest ih =>
    rw [List.foldl_cons]
    refine ih _ (fun kv hkv => ?_)
    rcases mem_dictInsert acc k0 v0 kv hkv with h | h
    · exact hacc kv h
    · simp [h]

theorem mem_alKeys_to_dict (itr : List PyVal) (k : String) :
    k ∈ alKeys (to_dict itr) ↔
      k ∈ itr.map (fun s => pyStrip (pyStr s)) ∧ k ≠ "" := by
  unfold to_dict
  rw [foldl_dictInsertConst_mem]
  simp only [alKeys_nil, List.not_mem_nil, false_or, List.mem_filter,
    decide_eq_true_eq]

theorem values_to_dict (itr : List PyVal) :
    ∀ kv, kv ∈ to_dict itr → kv.2 = PyVal.str "" := by
  unfold to_dict
  exact foldl_dictInsertConst_values _ _ [] (by simp)

theorem nodupKeys_to_dict (itr : List PyVal) : NodupKeys (to_dict itr) := by
  unfold to_dict
  generalize (itr.map (fun s => pyStrip (pyStr s))).filter (fun k => k ≠ "") = l
  have : ∀ (l : List String) (acc : List (String × PyVal)), NodupKeys acc →
      NodupKeys (l.foldl (fun d k' => dictInsert d k' (PyVal.str "")) acc) := by
    intro l
    induction l with
    | nil => exact fun acc h => h
    | cons k0 rest ih =>
      intro acc hacc
      exact ih _ (nodupKeys_dictInsert _ _ _ hacc)
  exact this l [] (by simp [NodupKeys, alKeys_nil])

/-! ## JSON round-trip lemmas: escapes -/

theorem hexVal_hexDigitChar (d : Nat) (h : d < 16) :
    hexVal (hexDigitChar d) = some d := by
  interval_cases d <;> decide

theorem hexVal4_hex4 (n : Nat) (h : n < 65536) :
    hexVal4 (hexDigitChar (n / 4096 % 16)) (hexDigitChar (n / 256 % 16))
      (hexDigitChar (n / 16 % 16)) (hexDigitChar (n % 16)) = some n := by
  have e1 : hexVal (hexDigitChar (n / 4096 % 16)) = some (n / 4096 % 16) :=
    hexVal_hexDigitChar _ (by omega)
  have e2 : hexVal (hexDigitChar (n / 256 % 16)) = some (n / 256 % 16) :=
    hexVal_hexDigitChar _ (by omega)
  have e3 : hexVal (hexDigitChar (n / 16 % 16)) = some (n / 16 % 16) :=
    hexVal_hexDigitChar _ (by omega)
  have e4 : hexVal (hexDigitChar (n % 16)) = some (n % 16) :=
    hexVal_hexDigitChar _ (by omega)
  simp only [hexVal4, e1, e2, e3, e4]
  congr 1
  omega

theorem char_valid_ranges (c : Char) :
    c.toNat < 55296 ∨ (57343 < c.toNat ∧ c.toNat < 1114112) := by
  have h := c.valid
  unfold UInt32.isValidChar at h
  unfold Nat.isValidChar at h
  exact h

theorem psu_cons (c : Char) (rest : List Char) :
    parseStringUnits (c :: rest) =
      if c = '"' then some ([], rest)
      else if c = '\\' then parseEscapeUnit rest
      else if c.toNat < 32 then Option.none
      else (parseStringUnits rest).map (fun p => (c.toNat :: p.1, p.2)) := rfl

theorem peu_u (a b c d : Char) (n : Nat) (r : List Char)
    (hx : hexVal4 a b c d = some n) :
    parseEscapeUnit ('u' :: a :: b :: c :: d :: r) =
      (parseStringUnits r).map (fun p => (n :: p.1, p.2)) := by
  have e : parseEscapeUnit ('u' :: a :: b :: c :: d :: r) =
      (match hexVal4 a b c d with
      | some n => (parseStringUnits r).map (fun p => (n :: p.1, p.2))
      | Option.none => Option.none) := rfl
  rw [e, hx]

theorem cs_cons (n : Nat) (rest : List Nat) :
    combineSurrogates (n :: rest) =
      if 55296 ≤ n ∧ n < 56320 then combineLowSurrogate n rest
      else if 56320 ≤ n ∧ n < 57344 then Option.none
      else (combineSurrogates rest).map (fun cs => Char.ofNat n :: cs) := rfl

theorem cls_cons (n m : Nat) (rest : List Nat) :
    combineLowSurrogate n (m :: rest) =
      if 56320 ≤ m ∧ m < 57344 then
        (combineSurrogates rest).map
          (fun cs => Char.ofNat (65536 + (n - 55296) * 1024 + (m - 56320)) :: cs)
      else Option.none := rfl

theorem psu_escapeChar (c : Char) (tail : List Char) :
    parseStringUnits (escapeChar c ++ tail) =
      (parseStringUnits tail).map (fun p => (escUnits c ++ p.1, p.2)) := by
  have hval := char_valid_ranges c
  by_cases h1 : c = '"'
  · subst h1; rfl
  by_cases h2 : c = '\\'
  · subst h2; rfl
  by_cases h3 : c = '\n'
  · subst h3; rfl
  by_cases h4 : c = '\r'
  · subst h4; rfl
  by_cases h5 : c = '\t'
  · subst h5; rfl
  by_cases h6 : c = '\x08'
  · subst h6; rfl
  by_cases h7 : c = '\x0c'
  · subst h7; rfl
  by_cases h8 : c.toNat < 32
  · simp only [escapeChar]
    rw [if_neg h1, if_neg h2, if_neg h3, if_neg h4, if_neg h5, if_neg h6,
      if_neg h7, if_pos h8]
    simp only [hex4, List.cons_append, List.nil_append]
    rw [psu_cons, if_neg (by decide), if_pos rfl,
      peu_u _ _ _ _ c.toNat tail (hexVal4_hex4 _ (by omega))]
    have e : escUnits c = [c.toNat] := by
      unfold escUnits; rw [if_pos (by omega)]
    rw [e]
    cases hpt : parseStringUnits tail <;> rfl
  by_cases h9 : c.toNat < 127
  · simp only [escapeChar]
    rw [if_neg h1, if_neg h2, if_neg h3, if_neg h4, if_neg h5, if_neg h6,
      if_neg h7, if_neg h8, if_pos h9]
    simp only [List.cons_append, List.nil_append]
    rw [psu_cons, if_neg h1, if_neg h2, if_neg h8]
    have e : escUnits c = [c.toNat] := by
      unfold escUnits; rw [if_pos (by omega)]
    rw [e]
    cases hpt : parseStringUnits tail <;> rfl
  by_cases h10 : c.toNat < 65536
  · simp only [escapeChar]
    rw [if_neg h1, if_neg h2, if_neg h3, if_neg h4, if_neg h5, if_neg h6,
      if_neg h7, if_neg h8, if_neg h9, if_pos h10]
    simp only [hex4, List.cons_append, List.nil_append]
    rw [psu_cons, if_neg (by decide), if_pos rfl,
      peu_u _ _ _ _ c.toNat tail (hexVal4_hex4 _ (by omega))]
    have e : escUnits c = [c.toNat] := by
      unfold escUnits; rw [if_pos (by omega)]
    rw [e]
    cases hpt : parseStringUnits tail <;> rfl
  · simp only [escapeChar]
    rw [if_neg h1, if_neg h2, if_neg h3, if_neg h4, if_neg h5, if_neg h6,
      if_neg h7, if_neg h8, if_neg h9, if_neg h10]
    simp only [hex4, List.cons_append, List.nil_append, List.append_assoc]
    rw [psu_cons, if_neg (by decide), if_pos rfl,
      peu_u _ _ _ _ (55296 + (c.toNat - 65536) / 1024) _
        (hexVal4_hex4 _ (by omega))]
    rw [psu_cons, if_neg (by decide), if_pos rfl,
      peu_u _ _ _ _ (56320 + (c.toNat - 65536) % 1024) tail
        (hexVal4_hex4 _ (by omega))]
    have e : escUnits c = [55296 + (c.toNat - 65536) / 1024,
        56320 + (c.toNat - 65536) % 1024] := by
      unfold escUnits; rw [if_neg h10]
    rw [e]
    cases hpt : parseStringUnits tail <;> rfl

theorem combineSurrogates_escUnits (c : Char) (units : List Nat) :
    combineSurrogates (escUnits c ++ units) =
      (combineSurrogates units).map (fun cs => c :: cs) := by
  have hval := char_valid_ranges c
  by_cases h : c.toNat < 65536
  · have e : escUnits c = [c.toNat] := by
      unfold escUnits; rw [if_pos h]
    rw [e, List.cons_append, List.nil_append, cs_cons,
      if_neg (by omega), if_neg (by omega)]
    simp only [Char.ofNat_toNat]
  · have e : escUnits c = [55296 + (c.toNat - 65536) / 1024,
        56320 + (c.toNat - 65536) % 1024] := by
      unfold escUnits; rw [if_neg h]
    rw [e, List.cons_append, List.cons_append, List.nil_append, cs_cons,
      if_pos (by omega), cls_cons, if_pos (by omega)]
    have harith : 65536 + (55296 + (c.toNat - 65536) / 1024 - 55296) * 1024 +
        (56320 + (c.toNat - 65536) % 1024 - 56320) = c.toNat := by omega
    rw [harith]
    simp only [Char.ofNat_toNat]

theorem parseStringUnits_escape (cs : List Char) (rest : List Char) :
    parseStringUnits (cs.flatMap escapeChar ++ '"' :: rest) =
      some (cs.flatMap escUnits, rest) := by
  induction cs with
  | nil => rfl
  | cons c cs ih =>
    rw [List.flatMap_cons, List.append_assoc, psu_escapeChar, ih,
      List.flatMap_cons]
    rfl

theorem combineSurrogates_flatMap (cs : List Char) :
    combineSurrogates (cs.flatMap escUnits) = some cs := by
  induction cs with
  | nil => rfl
  | cons c cs ih =>
    rw [List.flatMap_cons, combineSurrogates_escUnits, ih]
    rfl

/-- Round trip for a whole escaped string body. -/
theorem parseStringBody_escape (cs : List Char) (rest : List Char) :
    parseStringBody (cs.flatMap escapeChar ++ '"' :: rest) = some (cs, rest) := by
  unfold parseStringBody
  rw [parseStringUnits_escape]
  dsimp only
  rw [combineSurrogates_flatMap]

/-! ## JSON round-trip lemmas: flat objects -/

theorem skipWs_not_ws (c : Char) (cs : List Char) (h : jsonWs c = false) :
    skipWs (c :: cs) = c :: cs := by
  simp [skipWs, List.dropWhile_cons, h]

theorem parseVal_quote (fuel : Nat) (X : List Char) :
    parseVal (fuel + 1) ('"' :: X) =
      (parseStringBody X).map (fun p => (PyVal.str (String.mk p.1), p.2)) := rfl

theorem parseVal_skip_space (fuel : Nat) (X : List Char) :
    parseVal (fuel + 1) (' ' :: X) = parseVal (fuel + 1) X := rfl

theorem parseVal_dump_str (fuel : Nat) (sv : String) (tail : List Char) :
    parseVal (fuel + 1) (dumpChars (.str sv) ++ tail) = some (.str sv, tail) := by
  show parseVal (fuel + 1) ('"' :: ((escapeString sv ++ ['"']) ++ tail)) = _
  rw [List.append_assoc, List.singleton_append, parseVal_quote, escapeString,
    parseStringBody_escape]
  rfl

theorem parseMembers_quote (fuel : Nat) (acc : List (String × PyVal))
    (rest : List Char) :
    parseMembers (fuel + 1) acc ('"' :: rest) =
      (match parseStringBody rest with
      | some (kcs, r1) =>
        (match skipWs r1 with
        | ':' :: r2 =>
          (match parseVal fuel r2 with
          | some (v, r3) =>
            (match skipWs r3 with
            | ',' :: r4 =>
              parseMembers fuel (dictInsert acc (String.mk kcs) v) (skipWs r4)
            | '}' :: r4 => some (.dict (dictInsert acc (String.mk kcs) v), r4)
            | _ => Option.none)
          | Option.none => Option.none)
        | _ => Option.none)
      | Option.none => Option.none) := rfl

theorem dictInsert_append {α : Type} (d : List (String × α)) (k : String)
    (v : α) (h : k ∉ alKeys d) : dictInsert d k v = d ++ [(k, v)] := by
  induction d with
  | nil => rfl
  | cons kv rest ih =>
    obtain ⟨k0, v0⟩ := kv
    rw [alKeys_cons, List.mem_cons] at h
    push_neg at h
    have hne : k0 ≠ k := fun he => h.1 he.symm
    simp only [dictInsert, if_neg hne, List.cons_append]
    rw [ih h.2]

theorem dumpMembers_single (k : String) (v : PyVal) :
    dumpMembers [(k, v)] =
      '"' :: (escapeString k ++ '"' :: ':' :: ' ' :: dumpChars v) := rfl

theorem dumpMembers_cons_ne (k : String) (v : PyVal)
    (rest : List (String × PyVal)) (h : rest ≠ []) :
    dumpMembers ((k, v) :: rest) =
      '"' :: (escapeString k ++ '"' :: ':' :: ' ' :: dumpChars v) ++
        ',' :: ' ' :: dumpMembers rest := by
  cases rest with
  | nil => exact absurd rfl h
  | cons x xs => rfl

theorem alKeys_append {α : Type} (a b : List (String × α)) :
    alKeys (a ++ b) = alKeys a ++ alKeys b := List.map_append _ _ _

theorem skipWs_space (X : List Char) : skipWs (' ' :: X) = skipWs X := rfl

theorem skipWs_dumpMembers_cons (kv : String × PyVal)
    (m : List (String × PyVal)) (X : List Char) :
    skipWs (dumpMembers (kv :: m) ++ X) = dumpMembers (kv :: m) ++ X := by
  obtain ⟨k, v⟩ := kv
  cases m with
  | nil =>
    rw [dumpMembers_single, List.cons_append]
    exact skipWs_not_ws _ _ (by decide)
  | cons a b =>
    rw [dumpMembers_cons_ne _ _ _ (by simp), List.cons_append]
    exact skipWs_not_ws _ _ (by decide)

theorem parseMembers_member (fuel : Nat) (acc : List (String × PyVal))
    (k : String) (V : List Char) :
    parseMembers (fuel + 1) acc
        ('"' :: (escapeString k ++ '"' :: ':' :: ' ' :: V)) =
      (match parseVal fuel (' ' :: V) with
      | some (v, r3) =>
        (match skipWs r3 with
        | ',' :: r4 => parseMembers fuel (dictInsert acc k v) (skipWs r4)
        | '}' :: r4 => some (.dict (dictInsert acc k v), r4)
        | _ => Option.none)
      | Option.none => Option.none) := by
  rw [parseMembers_quote, escapeString, parseStringBody_escape]
  rfl

theorem parseMembers_member_last (fuel : Nat) (acc : List (String × PyVal))
    (k : String) (sv : String) (rest : List Char) :
    parseMembers (fuel + 1 + 1) acc
        ('"' :: (escapeString k ++ '"' :: ':' :: ' ' ::
          (dumpChars (.str sv) ++ '}' :: rest))) =
      some (.dict (dictInsert acc k (.str sv)), rest) := by
  rw [parseMembers_member, parseVal_skip_space, parseVal_dump_str]
  rfl

theorem parseMembers_member_more (fuel : Nat) (acc : List (String × PyVal))
    (k : String) (sv : String) (W : List Char) :
    parseMembers (fuel + 1 + 1) acc
        ('"' :: (escapeString k ++ '"' :: ':' :: ' ' ::
          (dumpChars (.str sv) ++ ',' :: ' ' :: '"' :: W))) =
      parseMembers (fuel + 1) (dictInsert acc k (.str sv)) ('"' :: W) := by
  rw [parseMembers_member, parseVal_skip_space, parseVal_dump_str]
  rfl

theorem dumpMembers_head_quote (kv : String × PyVal)
    (m : List (String × PyVal)) :
    ∃ W, dumpMembers (kv :: m) = '"' :: W := by
  obtain ⟨k, v⟩ := kv
  cases m with
  | nil => exact ⟨_, dumpMembers_single k v⟩
  | cons a b => exact ⟨_, dumpMembers_cons_ne k v (a :: b) (by simp)⟩

theorem parseMembers_dump_flat (m : List (String × PyVal)) :
    ∀ (acc : List (String × PyVal)) (fuel : Nat) (rest : List Char),
      2 * m.length + 1 ≤ fuel →
      (∀ kv ∈ m, ∃ s, kv.2 = PyVal.str s) →
      NodupKeys (acc ++ m) → m ≠ [] →
      parseMembers fuel acc (dumpMembers m ++ '}' :: rest) =
        some (.dict (acc ++ m), rest) := by
  induction m with
  | nil => intro _ _ _ _ _ _ hne; exact absurd rfl hne
  | cons kv m' ih =>
    obtain ⟨k, v⟩ := kv
    intro acc fuel rest hfuel hvals hnd _
    obtain ⟨s, hs⟩ := hvals (k, v) (List.mem_cons_self _ _)
    simp only at hs
    subst hs
    obtain ⟨f, rfl⟩ : ∃ f, fuel = f + 1 + 1 :=
      ⟨fuel - 2, by simp only [List.length_cons] at hfuel; omega⟩
    have hkacc : k ∉ alKeys acc := by
      have h1 : (alKeys acc ++ k :: alKeys m').Nodup := by
        simpa [NodupKeys, alKeys_append, alKeys_cons] using hnd
      intro hmem
      exact List.disjoint_of_nodup_append h1 hmem (List.mem_cons_self _ _)
    cases m' with
    | nil =>
      rw [dumpMembers_single]
      simp only [List.cons_append, List.append_assoc]
      rw [parseMembers_member_last, dictInsert_append _ _ _ hkacc]
    | cons kv2 m'' =>
      obtain ⟨W, hW⟩ := dumpMembers_head_quote kv2 m''
      rw [dumpMembers_cons_ne _ _ _ (by simp), hW]
      simp only [List.cons_append, List.append_assoc]
      rw [parseMembers_member_more]
      rw [show ('"' : Char) :: (W ++ '}' :: rest) =
        ('"' :: W) ++ '}' :: rest from rfl, ← hW,
        dictInsert_append _ _ _ hkacc]
      have heq : acc ++ [(k, PyVal.str s)] ++ (kv2 :: m'') =
          acc ++ (k, PyVal.str s) :: kv2 :: m'' := by
        simp
      rw [ih (acc ++ [(k, PyVal.str s)]) (f + 1) rest
        (by simp only [List.length_cons] at hfuel ⊢; omega)
        (fun x hx => hvals x (List.mem_cons_of_mem _ hx))
        (by rw [heq]; exact hnd) (by simp), heq]

theorem dumpMembers_length (m : List (String × PyVal)) :
    2 * m.length ≤ (dumpMembers m).length := by
  induction m with
  | nil => simp [dumpMembers]
  | cons kv m' ih =>
    obtain ⟨k, v⟩ := kv
    cases m' with
    | nil => simp [dumpMembers_single]; omega
    | cons a b =>
      rw [dumpMembers_cons_ne _ _ _ (by simp)]
      simp only [List.length_cons, List.length_append, List.cons_append]
      simp only [List.length_cons] at ih ⊢
      omega

theorem parseVal_lbrace_quote (fuel : Nat) (Y : List Char) :
    parseVal (fuel + 1) ('{' :: '"' :: Y) = parseMembers fuel [] ('"' :: Y) := rfl

/-- Round trip for a flat (string-valued) JSON object: `json.loads` inverts
`json.dumps` on any dict whose values are strings. -/
theorem json_loads_dumps_flat (m : List (String × PyVal))
    (hvals : ∀ kv ∈ m, ∃ s, kv.2 = PyVal.str s) (hnd : NodupKeys m) :
    json_loads (json_dumps (.dict m)) = some (.dict m) := by
  unfold json_loads json_dumps
  show (match parseVal ((dumpChars (.dict m)).length + 1) (dumpChars (.dict m))
        with
      | some (v, rest) => if skipWs rest = [] then some v else Option.none
      | Option.none => Option.none) = some (.dict m)
  cases m with
  | nil => rfl
  | cons kv m' =>
    obtain ⟨W, hW⟩ := dumpMembers_head_quote kv m'
    have hdump : dumpChars (.dict (kv :: m')) =
        '{' :: (dumpMembers (kv :: m') ++ ['}']) := rfl
    have hlen : 2 * (kv :: m').length + 1 ≤ (dumpChars (.dict (kv :: m'))).length := by
      rw [hdump]
      have := dumpMembers_length (kv :: m')
      simp only [List.length_cons, List.length_append, List.length_nil] at this ⊢
      omega
    have hparse : parseVal ((dumpChars (.dict (kv :: m'))).length + 1)
        (dumpChars (.dict (kv :: m'))) = some (.dict (kv :: m'), []) := by
      generalize hL : (dumpChars (PyVal.dict (kv :: m'))).length = L
      rw [hL] at hlen
      conv_lhs =>
        rw [show (dumpChars (.dict (kv :: m'))) =
          '{' :: '"' :: (W ++ ['}']) from by rw [hdump, hW, List.cons_append]]
      rw [parseVal_lbrace_quote]
      rw [show ('"' : Char) :: (W ++ ['}']) = dumpMembers (kv :: m') ++ '}' :: []
        from by rw [hW]; rfl]
      rw [parseMembers_dump_flat (kv :: m') [] L [] hlen hvals
        (by simpa using hnd) (by simp)]
      rfl
    rw [hparse]
    rfl

/-! ## Comma-join / split lemmas -/

theorem map_id_of_eq {α : Type} (f : α → α) (l : List α)
    (h : ∀ x ∈ l, f x = x) : l.map f = l := by
  induction l with
  | nil => rfl
  | cons x xs ih =>
    rw [List.map_cons, h x (List.mem_cons_self _ _),
      ih (fun y hy => h y (List.mem_cons_of_mem _ hy))]

theorem splitCommaChars_no_comma (x : List Char) (h : ',' ∉ x) :
    splitCommaChars x = [x] := by
  induction x with
  | nil => rfl
  | cons c rest ih =>
    rw [List.mem_cons] at h
    push_neg at h
    simp only [splitCommaChars, ih h.2]
    rw [if_neg (fun he => h.1 he.symm)]

theorem splitCommaChars_append (x : List Char) (cs : List Char) (h : ',' ∉ x) :
    splitCommaChars (x ++ ',' :: cs) = x :: splitCommaChars cs := by
  induction x with
  | nil => simp [List.nil_append, splitCommaChars]
  | cons c rest ih =>
    rw [List.mem_cons] at h
    push_neg at h
    rw [List.cons_append]
    simp only [splitCommaChars, ih h.2]
    rw [if_neg (fun he => h.1 he.symm)]

theorem splitCommaChars_join (ls : List (List Char))
    (h : ∀ l ∈ ls, ',' ∉ l) (hne : ls ≠ []) :
    splitCommaChars (joinCommaChars ls) = ls := by
  induction ls with
  | nil => exact absurd rfl hne
  | cons x ls' ih =>
    cases ls' with
    | nil => exact splitCommaChars_no_comma x (h x (List.mem_cons_self _ _))
    | cons y ys =>
      rw [show joinCommaChars (x :: y :: ys) =
        x ++ ',' :: joinCommaChars (y :: ys) from rfl]
      rw [splitCommaChars_append x _ (h x (List.mem_cons_self _ _))]
      rw [ih (fun l hl => h l (List.mem_cons_of_mem _ hl)) (by simp)]

theorem pySplitComma_join (keys : List String)
    (h : ∀ k ∈ keys, ',' ∉ k.data) (hne : keys ≠ []) :
    pySplitComma (pyJoinComma keys) = keys := by
  unfold pySplitComma pyJoinComma
  rw [show (String.mk (joinCommaChars (keys.map String.data))).data =
    joinCommaChars (keys.map String.data) from rfl]
  rw [splitCommaChars_join _
    (by rintro l hl
        rw [List.mem_map] at hl
        obtain ⟨k, hk, rfl⟩ := hl
        exact h k hk)
    (by simpa using hne)]
  rw [List.map_map]
  exact map_id_of_eq _ _ (fun s _ => rfl)

theorem mem_joinCommaChars (ls : List (List Char)) (c : Char)
    (hmem : c ∈ joinCommaChars ls) : (∃ l ∈ ls, c ∈ l) ∨ c = ',' := by
  induction ls with
  | nil => simp [joinCommaChars] at hmem
  | cons x ls' ih =>
    cases ls' with
    | nil =>
      left
      exact ⟨x, List.mem_cons_self _ _, hmem⟩
    | cons y ys =>
      rw [show joinCommaChars (x :: y :: ys) =
        x ++ ',' :: joinCommaChars (y :: ys) from rfl] at hmem
      rw [List.mem_append, List.mem_cons] at hmem
      rcases hmem with hx | hc | hj
      · exact Or.inl ⟨x, List.mem_cons_self _ _, hx⟩
      · exact Or.inr hc
      · rcases ih hj with ⟨l, hl, hcl⟩ | hc
        · exact Or.inl ⟨l, List.mem_cons_of_mem _ hl, hcl⟩
        · exact Or.inr hc

/-! ## `to_dict` on clean key lists -/

theorem foldl_dictInsertConst_of_nodup {α : Type} (v0 : α) (l : List String)
    (acc : List (String × α)) (hd : ∀ k ∈ l, k ∉ alKeys acc) (hnd : l.Nodup) :
    l.foldl (fun d k => dictInsert d k v0) acc =
      acc ++ l.map (fun k => (k, v0)) := by
  induction l generalizing acc with
  | nil => simp
  | cons k l' ih =>
    rw [List.nodup_cons] at hnd
    rw [List.foldl_cons, dictInsert_append _ _ _ (hd k (List.mem_cons_self _ _))]
    rw [ih (acc ++ [(k, v0)])
      (fun k' hk' => by
        rw [alKeys_append, List.mem_append]
        push_neg
        refine ⟨hd k' (List.mem_cons_of_mem _ hk'), ?_⟩
        intro hc
        simp only [alKeys_cons, alKeys_nil] at hc
        rcases List.mem_cons.mp hc with rfl | hfalse
        · exact hnd.1 hk'
        · exact List.not_mem_nil _ hfalse)
      hnd.2]
    simp

theorem to_dict_clean (keys : List String)
    (htrim : ∀ k ∈ keys, pyStrip k = k) (hne : ∀ k ∈ keys, k ≠ "")
    (hnd : keys.Nodup) :
    to_dict (keys.map PyVal.str) = keys.map (fun k => (k, PyVal.str "")) := by
  unfold to_dict
  have e1 : (keys.map PyVal.str).map (fun s => pyStrip (pyStr s)) = keys := by
    rw [List.map_map]
    exact map_id_of_eq _ _ (fun k hk => htrim k hk)
  rw [e1]
  have e2 : keys.filter (fun k => k ≠ "") = keys :=
    List.filter_eq_self.mpr (fun k hk => by simpa using hne k hk)
  rw [e2]
  simpa using
    foldl_dictInsertConst_of_nodup (PyVal.str "") keys []
      (by simp [alKeys_nil]) hnd

theorem eq_keys_map_of_empty_values (m : List (String × PyVal))
    (h : ∀ kv ∈ m, kv.2 = PyVal.str "") :
    m = (alKeys m).map (fun k => (k, PyVal.str "")) := by
  induction m with
  | nil => rfl
  | cons kv m' ih =>
    obtain ⟨k, v⟩ := kv
    have hv : v = PyVal.str "" := h (k, v) (List.mem_cons_self _ _)
    subst hv
    rw [alKeys_cons, List.map_cons]
    rw [← ih (fun x hx => h x (List.mem_cons_of_mem _ hx))]

/-! ## Claim C1 -/

/-- C1: for merge inputs `A` and `B` whose event dicts `events_to_dict`
computes successfully, the dict that `merge_events(A, B)` builds and
serializes is right-biased: every key present in both inputs' dicts gets B's
detail, and the merged key set is the union of both key sets.  (The
key-uniqueness hypothesis on `db` is automatic for any dict a real Python
execution produces.) -/
theorem C1_merge_events_right_biased (A B : PyVal)
    (da db : List (String × PyVal))
    (h1 : events_to_dict A = .ok da) (h2 : events_to_dict B = .ok db)
    (hn2 : NodupKeys db) :
    merged_events_dict A B = .ok (pyUpdate da db) ∧
    (∀ k, k ∈ alKeys da → k ∈ alKeys db →
      alLookup (pyUpdate da db) k = alLookup db k) ∧
    (∀ k, k ∈ alKeys (pyUpdate da db) ↔ k ∈ alKeys da ∨ k ∈ alKeys db) := by
  refine ⟨?_, ?_, fun k => mem_alKeys_pyUpdate da db k⟩
  · unfold merged_events_dict
    rw [h1, h2]
  · intro k hka hkb
    unfold pyUpdate
    rw [alLookup_foldl_dictInsert db _ k hn2]
    rcases Option.isSome_iff_exists.mp ((alLookup_isSome_iff db k).mpr hkb) with
      ⟨v, hv⟩
    simp [hv, optOr]

/-- Witness for C1 at `A = "a,b"`, `B = {"b": "2"}`. -/
theorem C1_merge_events_right_biased_witness :
    merged_events_dict (.str "a,b") (.dict [("b", .str "2")]) =
      .ok (pyUpdate [("a", .str ""), ("b", .str "")] [("b", .str "2")]) ∧
    (∀ k, k ∈ alKeys [("a", PyVal.str ""), ("b", PyVal.str "")] →
      k ∈ alKeys [("b", PyVal.str "2")] →
      alLookup (pyUpdate [("a", PyVal.str ""), ("b", PyVal.str "")]
        [("b", PyVal.str "2")]) k = alLookup [("b", PyVal.str "2")] k) ∧
    (∀ k, k ∈ alKeys (pyUpdate [("a", PyVal.str ""), ("b", PyVal.str "")]
        [("b", PyVal.str "2")]) ↔
      k ∈ alKeys [("a", PyVal.str ""), ("b", PyVal.str "")] ∨
      k ∈ alKeys [("b", PyVal.str "2")]) :=
  C1_merge_events_right_biased (.str "a,b") (.dict [("b", .str "2")])
    [("a", .str ""), ("b", .str "")] [("b", .str "2")]
    (by decide) (by decide) (by decide)

/-! ## Claim C10 -/

/-- C10: a `DynamicHXChoiceField` constructed without a usable `choice_url`
(absent or empty string) never gets an `allow_new_choices` attribute, so
every `validate` call — whatever the submitted value, even one among the
static choices — raises `AttributeError` instead of producing a validation
result. -/
theorem C10_validate_raises_attribute_error (allow_new : Bool)
    (choice_url : Option String) (choices : List (String × String))
    (value : String) (hurl : is_not_none choice_url = false) :
    dynamicHXChoiceField_validate
      (dynamicHXChoiceField_init allow_new choice_url choices) value =
      .error (.attributeError "allow_new_choices") := by
  unfold dynamicHXChoiceField_init
  rw [hurl]
  simp [dynamicHXChoiceField_validate]

/-- Witness for C10 at `choice_url = None`, a value that IS a static choice. -/
theorem C10_validate_raises_attribute_error_witness :
    dynamicHXChoiceField_validate
      (dynamicHXChoiceField_init true Option.none [("a", "a")]) "a" =
      .error (.attributeError "allow_new_choices") :=
  C10_validate_raises_attribute_error true Option.none [("a", "a")] "a" (by decide)

/-! ## Claim C9 -/

/-- C9: when the `config` query parameter is present but is not valid JSON,
the self-configuration step registers no pending operations and raises
nothing: it returns the request unchanged. -/
theorem C9_malformed_config_is_soft (request : Request) (s : String)
    (hc : request.config = some s) (hbad : json_loads s = Option.none) :
    _request_configures_response request = .ok request := by
  simp [_request_configures_response, hc, hbad]

/-- Witness for C9 at a config value that is not valid JSON. -/
theorem C9_malformed_config_is_soft_witness :
    _request_configures_response ⟨some "not json", Option.none⟩ =
      .ok ⟨some "not json", Option.none⟩ :=
  C9_malformed_config_is_soft ⟨some "not json", Option.none⟩ "not json" rfl (by decide)

/-! ## Claim C8 -/

/-- C8: a `DynamicHXChoiceField` with a usable `choice_url` and choices
`[("a","a")]`, validated with the unknown value `"b"`: with
`allow_new_choices=True` validation succeeds and appends `("b","b")` to the
choice list; with `allow_new_choices=False` it raises a validation error. -/
theorem C8_dynamic_choice_admission (choice_url : Option String)
    (hurl : is_not_none choice_url = true) :
    dynamicHXChoiceField_validate
      (dynamicHXChoiceField_init true choice_url [("a", "a")]) "b" =
      .ok { choices := [("a", "a"), ("b", "b")],
            allow_new_choices := some true } ∧
    dynamicHXChoiceField_validate
      (dynamicHXChoiceField_init false choice_url [("a", "a")]) "b" =
      .error .validationError := by
  constructor <;>
    (unfold dynamicHXChoiceField_init
     rw [hurl]
     simp [dynamicHXChoiceField_validate, choiceField_validate])

/-- Witness for C8 at `choice_url = "/choices"`. -/
theorem C8_dynamic_choice_admission_witness :
    dynamicHXChoiceField_validate
      (dynamicHXChoiceField_init true (some "/choices") [("a", "a")]) "b" =
      .ok { choices := [("a", "a"), ("b", "b")],
            allow_new_choices := some true } ∧
    dynamicHXChoiceField_validate
      (dynamicHXChoiceField_init false (some "/choices") [("a", "a")]) "b" =
      .error .validationError :=
  C8_dynamic_choice_admission (some "/choices") (by decide)

/-! ## Claim C7 -/

/-- C7: an operation whose function name cannot be found on the resolved
module makes `process_htmx_response` raise an `AttributeError` whose message
names both the missing function and the module, and no subsequent pending
operation is executed: the result does not depend on the remaining
operations. -/
theorem C7_missing_function_aborts (env : ImportEnv) (response : Response)
    (name : String) (args : PyVal) (rest : List (String × PyVal))
    (hmiss :
      alLookup (resolveModule env (splitFuncName env.currentName name).1).funcs
        (splitFuncName env.currentName name).2 = Option.none) :
    process_htmx_response env response ((name, args) :: rest) =
      .error (.attributeError
        (missingFuncMsg (splitFuncName env.currentName name).2
          (splitFuncName env.currentName name).1)) ∧
    (∃ pre post,
      missingFuncMsg (splitFuncName env.currentName name).2
          (splitFuncName env.currentName name).1 =
        pre ++ (splitFuncName env.currentName name).2 ++ post) ∧
    (∃ pre post,
      missingFuncMsg (splitFuncName env.currentName name).2
          (splitFuncName env.currentName name).1 =
        pre ++ (splitFuncName env.currentName name).1 ++ post) ∧
    (∀ rest', process_htmx_response env response ((name, args) :: rest') =
      process_htmx_response env response ((name, args) :: rest)) := by
  have hstep : ∀ r : List (String × PyVal),
      process_htmx_response env response ((name, args) :: r) =
        .error (.attributeError
          (missingFuncMsg (splitFuncName env.currentName name).2
            (splitFuncName env.currentName name).1)) := by
    intro r
    simp only [process_htmx_response, hmiss]
  refine ⟨hstep rest, ?_, ?_, fun rest' => (hstep rest').trans (hstep rest).symm⟩
  · refine ⟨"Function " ++ String.mk [squote],
      String.mk [squote] ++ " not found in module " ++ String.mk [squote] ++
        (splitFuncName env.currentName name).1 ++ String.mk [squote] ++
        " or current file", ?_⟩
    simp [missingFuncMsg, String.append_assoc]
  · refine ⟨"Function " ++ String.mk [squote] ++
      (splitFuncName env.currentName name).2 ++ String.mk [squote] ++
        " not found in module " ++ String.mk [squote],
      String.mk [squote] ++ " or current file", ?_⟩
    simp [missingFuncMsg, String.append_assoc]

/-- Witness for C7: dispatching `no_such_fn` against an environment whose
current module only holds the probe function. -/
theorem C7_missing_function_aborts_witness :
    process_htmx_response recorderEnv ⟨[]⟩ [("no_such_fn", PyVal.none)] =
      .error (.attributeError
        (missingFuncMsg
          (splitFuncName recorderEnv.currentName "no_such_fn").2
          (splitFuncName recorderEnv.currentName "no_such_fn").1)) ∧
    (∃ pre post,
      missingFuncMsg (splitFuncName recorderEnv.currentName "no_such_fn").2
          (splitFuncName recorderEnv.currentName "no_such_fn").1 =
        pre ++ (splitFuncName recorderEnv.currentName "no_such_fn").2 ++ post) ∧
    (∃ pre post,
      missingFuncMsg (splitFuncName recorderEnv.currentName "no_such_fn").2
          (splitFuncName recorderEnv.currentName "no_such_fn").1 =
        pre ++ (splitFuncName recorderEnv.currentName "no_such_fn").1 ++ post) ∧
    (∀ rest',
      process_htmx_response recorderEnv ⟨[]⟩ (("no_such_fn", PyVal.none) :: rest') =
        process_htmx_response recorderEnv ⟨[]⟩ [("no_such_fn", PyVal.none)]) :=
  C7_missing_function_aborts recorderEnv ⟨[]⟩ "no_such_fn" PyVal.none [] rfl

/-! ## Claim C6 (corrected) -/

/-- C6 counterexample: a tuple argument is an ordered sequence, yet the
dispatcher does not spread it positionally — the probe observes it arriving
as ONE positional argument, contradicting the claim's shape discipline
(`specArgShape`, the spec's wording). -/
theorem C6_counterexample :
    process_htmx_response recorderEnv ⟨[]⟩ [("record", .tuple [.str "x"])] =
      .ok ⟨[("X-Shape", "single")]⟩ ∧
    specArgShape (.tuple [.str "x"]) = .positional [.str "x"] ∧
    callShape (.tuple [.str "x"]) = .single (.tuple [.str "x"]) ∧
    CallArgs.single (.tuple [PyVal.str "x"]) ≠
      CallArgs.positional [PyVal.str "x"] := by
  refine ⟨?_, rfl, rfl, by decide⟩
  rfl

/-- C6 (amended): the dispatcher invokes each resolved function with the
response and the registered arguments shaped by the `isinstance` chain — a
dict spreads as keyword arguments, a list spreads positionally, anything
else (tuples included) is one positional argument — and the function's
return value is the response used for the remaining operations. -/
theorem C6_dispatch_shape_and_threading (env : ImportEnv) (response : Response)
    (name : String) (args : PyVal) (rest : List (String × PyVal))
    (f : Response → CallArgs → Except PyError Response)
    (hres :
      alLookup (resolveModule env (splitFuncName env.currentName name).1).funcs
        (splitFuncName env.currentName name).2 = some f)
    (r' : Response) (hcall : f response (callShape args) = .ok r') :
    process_htmx_response env response ((name, args) :: rest) =
      process_htmx_response env r' rest ∧
    (∀ d, callShape (.dict d) = .kwargs d) ∧
    (∀ xs, callShape (.list xs) = .positional xs) ∧
    (∀ v, (∀ d, v ≠ .dict d) → (∀ xs, v ≠ .list xs) →
      callShape v = .single v) := by
  refine ⟨?_, fun d => rfl, fun xs => rfl, ?_⟩
  · simp only [process_htmx_response, hres, hcall]
  · intro v hd hl
    cases v with
    | dict d => exact absurd rfl (hd d)
    | list xs => exact absurd rfl (hl xs)
    | str s => rfl
    | int n => rfl
    | bool b => rfl
    | none => rfl
    | float lx => rfl
    | tuple xs => rfl

/-- Witness for C6 at the probe environment, with a dict argument. -/
theorem C6_dispatch_shape_and_threading_witness :
    process_htmx_response recorderEnv ⟨[]⟩ [("record", .dict [("k", .str "v")])] =
      process_htmx_response recorderEnv ⟨[("X-Shape", "kwargs")]⟩ [] ∧
    (∀ d, callShape (.dict d) = .kwargs d) ∧
    (∀ xs, callShape (.list xs) = .positional xs) ∧
    (∀ v, (∀ d, v ≠ .dict d) → (∀ xs, v ≠ .list xs) →
      callShape v = .single v) :=
  C6_dispatch_shape_and_threading recorderEnv ⟨[]⟩ "record"
    (.dict [("k", .str "v")]) [] shapeRecorder rfl
    ⟨[("X-Shape", "kwargs")]⟩ rfl

/-! ## Claim C2 (corrected) -/

/-- C2 counterexample: a mapping input with an untrimmed key is returned
with that key exactly as given — contradicting the claim that the result's
keys are the trimmed, non-empty tokens or keys of the input. -/
theorem C2_counterexample :
    events_to_dict (.dict [(" a ", .str "x")]) = .ok [(" a ", .str "x")] ∧
    (" a " : String) ∈ alKeys [(" a ", PyVal.str "x")] ∧
    pyStrip " a " ≠ " a " := by
  exact ⟨rfl, by decide, by decide⟩

/-- C2 (amended): `events_to_dict` by input form — a non-JSON string splits
on commas into its trimmed non-empty tokens, each with empty detail; an
iterable gets the same token treatment on the string forms of its elements;
a JSON-object string decodes to its object and a native mapping is returned
as-is (keys NOT trimmed, empty keys kept, values preserved); an absent input
gives the empty dict. -/
theorem C2_events_to_dict_by_form :
    (∀ s, json_loads s = Option.none →
      ∃ d, events_to_dict (.str s) = .ok d ∧
        (∀ k, k ∈ alKeys d ↔ k ∈ (pySplitComma s).map pyStrip ∧ k ≠ "") ∧
        (∀ kv, kv ∈ d → kv.2 = PyVal.str "")) ∧
    (∀ xs, ∃ d, events_to_dict (.list xs) = .ok d ∧
        (∀ k, k ∈ alKeys d ↔ k ∈ xs.map (fun s => pyStrip (pyStr s)) ∧ k ≠ "") ∧
        (∀ kv, kv ∈ d → kv.2 = PyVal.str "")) ∧
    (∀ m, events_to_dict (.dict m) = .ok m) ∧
    (∀ s m, json_loads s = some (.dict m) → events_to_dict (.str s) = .ok m) ∧
    events_to_dict PyVal.none = .ok [] := by
  refine ⟨?_, ?_, fun m => rfl, ?_, rfl⟩
  · intro s hs
    refine ⟨to_dict ((pySplitComma s).map PyVal.str), ?_, ?_, ?_⟩
    · simp only [events_to_dict, hs]
    · intro k
      rw [mem_alKeys_to_dict]
      simp only [List.map_map]
      constructor
      · rintro ⟨hk, hne⟩
        exact ⟨by simpa [pyStr] using hk, hne⟩
      · rintro ⟨hk, hne⟩
        exact ⟨by simpa [pyStr] using hk, hne⟩
    · exact values_to_dict _
  · intro xs
    exact ⟨to_dict xs, rfl, fun k => mem_alKeys_to_dict xs k, values_to_dict xs⟩
  · intro s m hs
    simp only [events_to_dict, hs]

/-- Witness for C2: the token-string form at `"a, b ,"` and the JSON-object
form at `"{"e": 1}"`. -/
theorem C2_events_to_dict_by_form_witness :
    (∃ d, events_to_dict (.str "a, b ,") = .ok d ∧
      (∀ k, k ∈ alKeys d ↔ k ∈ (pySplitComma "a, b ,").map pyStrip ∧ k ≠ "") ∧
      (∀ kv, kv ∈ d → kv.2 = PyVal.str "")) ∧
    events_to_dict (.str (String.mk ['{', '"', 'e', '"', ':', ' ', '1', '}'])) =
      .ok [("e", PyVal.int 1)] :=
  ⟨C2_events_to_dict_by_form.1 "a, b ," (by decide),
   C2_events_to_dict_by_form.2.2.2.1
     (String.mk ['{', '"', 'e', '"', ':', ' ', '1', '}']) [("e", PyVal.int 1)]
     (by decide)⟩

/-! ## Claim C5 (corrected) -/

/-- C5 counterexample: `retrigger(response, after="settle", events="foo")`
writes the header `HX-Trigger-After-Settle`; the claimed header name
`X-Trigger-After-Settle` remains absent from the response. -/
theorem C5_counterexample :
    retrigger ⟨[]⟩ (some "settle") (.str "foo") =
      .ok ⟨[("HX-Trigger-After-Settle", "foo")]⟩ ∧
    Response.get ⟨[("HX-Trigger-After-Settle", "foo")]⟩
      "X-Trigger-After-Settle" = Option.none := by
  exact ⟨by decide, by decide⟩

/-- C5 (amended): `retrigger(response, after, events)` selects the header
name `HX-Trigger`, `HX-Trigger-After-Settle`, or `HX-Trigger-After-Swap`
(htmx's names, not `X-`-prefixed ones) according to whether `after` is
`None`, `"settle"`, or `"swap"`; it merges the new events with any existing
value of that header and writes the merged result back; in particular on a
response without the header, `events="foo"` sets it to `"foo"` and a
subsequent call with `events="bar"` sets it to `"foo,bar"`. -/
theorem C5_retrigger_header_and_merge (response : Response)
    (after : Option String) (events : PyVal)
    (hafter : after = Option.none ∨ after = some "settle" ∨ after = some "swap") :
    retriggerHeader after = (match after with
      | Option.none => "HX-Trigger"
      | some "settle" => "HX-Trigger-After-Settle"
      | _ => "HX-Trigger-After-Swap") ∧
    retrigger response after events =
      (match merge_events (headerAsMergeInput response (retriggerHeader after))
          events with
       | .ok merged => .ok (response.set (retriggerHeader after) merged)
       | .error e => .error e) ∧
    retrigger ⟨[]⟩ (some "settle") (.str "foo") =
      .ok ⟨[("HX-Trigger-After-Settle", "foo")]⟩ ∧
    retrigger ⟨[("HX-Trigger-After-Settle", "foo")]⟩ (some "settle")
      (.str "bar") = .ok ⟨[("HX-Trigger-After-Settle", "foo,bar")]⟩ := by
  refine ⟨?_, rfl, by decide, by decide⟩
  rcases hafter with h | h | h <;> subst h <;> decide

/-- Witness for C5 at `after = "settle"` on an empty response. -/
theorem C5_retrigger_header_and_merge_witness :
    retriggerHeader (some "settle") = (match (some "settle" : Option String) with
      | Option.none => "HX-Trigger"
      | some "settle" => "HX-Trigger-After-Settle"
      | _ => "HX-Trigger-After-Swap") ∧
    retrigger ⟨[]⟩ (some "settle") (.str "x") =
      (match merge_events
          (headerAsMergeInput ⟨[]⟩ (retriggerHeader (some "settle")))
          (.str "x") with
       | .ok merged => .ok (Response.set ⟨[]⟩ (retriggerHeader (some "settle")) merged)
       | .error e => .error e) ∧
    retrigger ⟨[]⟩ (some "settle") (.str "foo") =
      .ok ⟨[("HX-Trigger-After-Settle", "foo")]⟩ ∧
    retrigger ⟨[("HX-Trigger-After-Settle", "foo")]⟩ (some "settle")
      (.str "bar") = .ok ⟨[("HX-Trigger-After-Settle", "foo,bar")]⟩ :=
  C5_retrigger_header_and_merge ⟨[]⟩ (some "settle") (.str "x")
    (Or.inr (Or.inl rfl))

/-! ## Claims C3 and C4 (corrected): serialization of the merged dict -/

theorem merge_events_eq (A B : PyVal) (da db : List (String × PyVal))
    (h1 : events_to_dict A = .ok da) (h2 : events_to_dict B = .ok db) :
    merge_events A B =
      (if (pyUpdate da db).any (fun kv => pyTruthy kv.2) then
        Except.ok (json_dumps (.dict (pyUpdate da db)))
      else Except.ok (pyJoinComma (alKeys (pyUpdate da db)))) := by
  unfold merge_events merged_events_dict
  rw [h1, h2]

/-- C4 counterexample: a single merged event whose key is the brace character
(with empty detail) serializes to the comma-joined key list `"{"`, which
contains a JSON brace — contradicting the claim's "containing no JSON
braces". -/
theorem C4_counterexample :
    merge_events (.dict [(String.mk ['{'], .str "")]) PyVal.none =
      .ok (String.mk ['{']) ∧
    '{' ∈ (String.mk ['{']).data := by
  exact ⟨by decide, by decide⟩

/-- C4 (amended): when every merged detail is falsy, `merge_events` returns
the comma-joined key list — which contains no JSON braces provided no key
contains one; when at least one merged detail is truthy it returns the JSON
serialization of the full merged mapping — a valid JSON object string that
decodes back to the mapping whenever the details are strings. -/
theorem C4_serialization_format (A B : PyVal) (da db : List (String × PyVal))
    (h1 : events_to_dict A = .ok da) (h2 : events_to_dict B = .ok db) :
    ((pyUpdate da db).any (fun kv => pyTruthy kv.2) = false →
      merge_events A B = .ok (pyJoinComma (alKeys (pyUpdate da db))) ∧
      ((∀ k ∈ alKeys (pyUpdate da db), '{' ∉ k.data ∧ '}' ∉ k.data) →
        '{' ∉ (pyJoinComma (alKeys (pyUpdate da db))).data ∧
        '}' ∉ (pyJoinComma (alKeys (pyUpdate da db))).data)) ∧
    ((pyUpdate da db).any (fun kv => pyTruthy kv.2) = true →
      merge_events A B = .ok (json_dumps (.dict (pyUpdate da db))) ∧
      ((∀ kv ∈ pyUpdate da db, ∃ s, kv.2 = PyVal.str s) →
        json_loads (json_dumps (.dict (pyUpdate da db))) =
          some (.dict (pyUpdate da db)))) := by
  constructor
  · intro hfalsy
    refine ⟨by rw [merge_events_eq A B da db h1 h2, hfalsy]; rfl, ?_⟩
    intro hkeys
    constructor
    · intro hc
      rcases mem_joinCommaChars _ _ hc with ⟨l, hl, hcl⟩ | hcomma
      · rw [List.mem_map] at hl
        obtain ⟨k, hk, rfl⟩ := hl
        exact (hkeys k hk).1 hcl
      · exact absurd hcomma (by decide)
    · intro hc
      rcases mem_joinCommaChars _ _ hc with ⟨l, hl, hcl⟩ | hcomma
      · rw [List.mem_map] at hl
        obtain ⟨k, hk, rfl⟩ := hl
        exact (hkeys k hk).2 hcl
      · exact absurd hcomma (by decide)
  · intro htruthy
    refine ⟨by rw [merge_events_eq A B da db h1 h2, htruthy]; rfl, ?_⟩
    intro hstr
    exact json_loads_dumps_flat _ hstr (nodupKeys_pyUpdate da db)

/-- Witness for C4 at `A = "foo"`, `B = None`. -/
theorem C4_serialization_format_witness :
    ((pyUpdate [(("foo" : String), PyVal.str "")] []).any
        (fun kv => pyTruthy kv.2) = false →
      merge_events (.str "foo") PyVal.none =
        .ok (pyJoinComma (alKeys (pyUpdate [(("foo" : String), PyVal.str "")] []))) ∧
      ((∀ k ∈ alKeys (pyUpdate [(("foo" : String), PyVal.str "")] []),
          '{' ∉ k.data ∧ '}' ∉ k.data) →
        '{' ∉ (pyJoinComma
          (alKeys (pyUpdate [(("foo" : String), PyVal.str "")] []))).data ∧
        '}' ∉ (pyJoinComma
          (alKeys (pyUpdate [(("foo" : String), PyVal.str "")] []))).data)) ∧
    ((pyUpdate [(("foo" : String), PyVal.str "")] []).any
        (fun kv => pyTruthy kv.2) = true →
      merge_events (.str "foo") PyVal.none =
        .ok (json_dumps (.dict (pyUpdate [(("foo" : String), PyVal.str "")] []))) ∧
      ((∀ kv ∈ pyUpdate [(("foo" : String), PyVal.str "")] [],
          ∃ s, kv.2 = PyVal.str s) →
        json_loads (json_dumps (.dict (pyUpdate [(("foo" : String), PyVal.str "")] []))) =
          some (.dict (pyUpdate [(("foo" : String), PyVal.str "")] [])))) :=
  C4_serialization_format (.str "foo") PyVal.none
    [(("foo" : String), PyVal.str "")] [] (by decide) (by decide)

/-- C3 counterexample: for a JSON-object merge input whose single key has a
leading space and empty detail, the merged dict keeps the raw key `" a"`,
but the serialized output `" a"` re-parses through `events_to_dict` with
trimming into `{"a": ""}` — not the merged dict. -/
theorem C3_counterexample :
    merged_events_dict (.dict [((" a" : String), PyVal.str "")]) PyVal.none =
      .ok [((" a" : String), PyVal.str "")] ∧
    merge_events (.dict [((" a" : String), PyVal.str "")]) PyVal.none =
      .ok " a" ∧
    events_to_dict (.str " a") = .ok [(("a" : String), PyVal.str "")] ∧
    [(("a" : String), PyVal.str "")] ≠ [((" a" : String), PyVal.str "")] := by
  exact ⟨by decide, by decide, by decide, by decide⟩

/-- C3 (amended): the output of `merge_events` round-trips through
`events_to_dict` back to the right-biased merged dict, provided every merged
detail is a string, and — when all details are empty (the comma-join
branch) — every merged key is trimmed, non-empty and comma-free and the
joined key list is not itself valid JSON. -/
theorem C3_merge_roundtrip (A B : PyVal) (da db : List (String × PyVal))
    (h1 : events_to_dict A = .ok da) (h2 : events_to_dict B = .ok db)
    (hstr : ∀ kv ∈ pyUpdate da db, ∃ s, kv.2 = PyVal.str s)
    (hclean : (pyUpdate da db).any (fun kv => pyTruthy kv.2) = false →
      (∀ k ∈ alKeys (pyUpdate da db), pyStrip k = k ∧ k ≠ "" ∧ ',' ∉ k.data) ∧
      json_loads (pyJoinComma (alKeys (pyUpdate da db))) = Option.none) :
    ∃ out, merge_events A B = .ok out ∧
      events_to_dict (.str out) = .ok (pyUpdate da db) := by
  rw [merge_events_eq A B da db h1 h2]
  by_cases hany : (pyUpdate da db).any (fun kv => pyTruthy kv.2)
  · rw [if_pos hany]
    refine ⟨_, rfl, ?_⟩
    have hload := json_loads_dumps_flat (pyUpdate da db) hstr
      (nodupKeys_pyUpdate da db)
    simp only [events_to_dict, hload]
  · have hany' : (pyUpdate da db).any (fun kv => pyTruthy kv.2) = false := by
      simpa using hany
    rw [if_neg hany]
    obtain ⟨hkeys, hload⟩ := hclean hany'
    refine ⟨_, rfl, ?_⟩
    simp only [events_to_dict, hload]
    have hempty : ∀ kv ∈ pyUpdate da db, kv.2 = PyVal.str "" := by
      intro kv hkv
      obtain ⟨s, hs⟩ := hstr kv hkv
      have hf : ¬ (pyTruthy kv.2 = true) := by
        rw [List.any_eq_false] at hany'
        exact fun hc => (by simpa [hc] using hany' kv hkv)
      rw [hs] at hf ⊢
      have hse : s = "" := by simpa [pyTruthy] using hf
      rw [hse]
  -- two sub-cases on whether the merged dict is empty
    by_cases hnil : pyUpdate da db = []
    · rw [hnil]
      rfl
    · have hkeysne : alKeys (pyUpdate da db) ≠ [] := by
        intro hk
        exact hnil (by simpa [alKeys, List.map_eq_nil_iff] using hk)
      rw [pySplitComma_join _ (fun k hk => (hkeys k hk).2.2) hkeysne]
      rw [to_dict_clean _ (fun k hk => (hkeys k hk).1)
        (fun k hk => (hkeys k hk).2.1) (nodupKeys_pyUpdate da db)]
      rw [← eq_keys_map_of_empty_values _ hempty]

/-- Witness for C3 at `A = "foo"`, `B = "bar"`. -/
theorem C3_merge_roundtrip_witness :
    ∃ out, merge_events (.str "foo") (.str "bar") = .ok out ∧
      events_to_dict (.str out) =
        .ok (pyUpdate [(("foo" : String), PyVal.str "")]
          [(("bar" : String), PyVal.str "")]) :=
  C3_merge_roundtrip (.str "foo") (.str "bar")
    [(("foo" : String), PyVal.str "")] [(("bar" : String), PyVal.str "")]
    (by decide) (by decide)
    (by
      have he : pyUpdate [(("foo" : String), PyVal.str "")]
          [(("bar" : String), PyVal.str "")] =
          [(("foo" : String), PyVal.str ""), (("bar" : String), PyVal.str "")] := by
        decide
      rw [he]
      rintro kv hkv
      rcases List.mem_cons.mp hkv with rfl | hkv
      · exact ⟨"", rfl⟩
      rcases List.mem_cons.mp hkv with rfl | hkv
      · exact ⟨"", rfl⟩
      · exact absurd hkv (List.not_mem_nil _))
    (by decide)

end HtmxSpec
